import Mathlib

/-!
# Verification of the pixelscan library (pixelscan/pixelscan.py)

Shallow embedding of the point-scan generators and stream transformations of
`pixelscan.py`, together with proofs about the properties stated in the
design specification.

Conventions used throughout:
* Python `int` is embedded as `ℤ` (or `ℕ` where the source value is
  provably non-negative).  Python `float`s appear only in `circlescan`
  (multiples of `10⁻⁶`, embedded as exact fixed-point integers `Micro`),
  in `hilbertscan` (non-negative dyadics, embedded as exact
  mantissa/exponent pairs `Dyadic`) and in `walkscan`'s probabilities
  (embedded as `ℚ`); in each case the values reached are carried exactly,
  as the comments at the individual definitions justify.
* A Python generator is embedded as the list of points it yields when driven
  to exhaustion (wrapped in `Except String` when its body can raise), or as
  an explicit state machine `state → Option point × state` when per-pull
  behaviour matters.
* `random.*` calls are embedded as explicit choice functions passed in as
  parameters.
-/

namespace Pixelscan

/-- A grid point with integer coordinates. -/
abbrev IPoint := ℤ × ℤ

/-- A fixed-point coordinate: the integer `n` stands for the real value
`n · 10⁻⁶`.  Every float produced by `circlescan` is an integer combination
of `1` and the literal `a = 0.707107 = 707107 · 10⁻⁶`, so this grid
represents all of them exactly.  (IEEE-754 doubles carry each such value
with relative error `< 2⁻⁵²`, far below the distance of any value from the
rounding boundaries used below, so the embedded integers round exactly as
the Python floats do.) -/
abbrev Micro := ℤ

/-- The fixed-point embedding of an integer. -/
def microInt (n : ℤ) : Micro := n * 1000000

/-- A point with fixed-point coordinates, as produced by `circlescan`. -/
abbrev FPoint := Micro × Micro

/-! ## Distance metrics (`chebyshev`, `manhattan`) -/

/-- `chebyshev(point1, point2) = max(|dx|, |dy|)` from the source. -/
def chebyshev (point1 point2 : IPoint) : ℤ :=
  max |point1.1 - point2.1| |point1.2 - point2.2|

/-- `manhattan(point1, point2) = |dx| + |dy|` from the source. -/
def manhattan (point1 point2 : IPoint) : ℤ :=
  |point1.1 - point2.1| + |point1.2 - point2.2|

/-! ## Python `range`

`range(a, b, step)` with `step ≠ 0`, embedded as the list
`[a, a + step, a + 2·step, …]` of the usual Python length. -/

/-- Number of elements of Python `range(a, b, step)`. -/
def pyRangeLen (a b step : ℤ) : ℕ :=
  if 0 < step then
    if b ≤ a then 0 else (b - a - 1).toNat / step.toNat + 1
  else if step < 0 then
    if a ≤ b then 0 else (a - b - 1).toNat / (-step).toNat + 1
  else 0

/-- Python `range(a, b, step)` as a list. -/
def pyRange (a b step : ℤ) : List ℤ :=
  (List.range (pyRangeLen a b step)).map (fun i : ℕ => a + step * (i : ℤ))

/-! ## `gridscan` -/

/-- The list of points yielded by the `gridscan` generator body
(the two nested `for … in range(…)` loops), for the direction steps
`dx`, `dy` already computed. -/
def gridPoints (xi yi xf yf dx dy : ℤ) : List IPoint :=
  (pyRange yi (yf + dy) dy).flatMap fun y =>
    (pyRange xi (xf + dx) dx).map fun x => (x, y)

/-- `gridscan(xi, yi, xf, yf, stepx, stepy)` driven to exhaustion:
validates the steps, derives the per-axis directions, then scans x fastest
inside y.  (`gridscan` is a Python generator function, so the `ValueError`s
are in fact raised at the first pull, not at the call — see
`gridscanCall` below for the call itself.) -/
def gridscan (xi yi xf yf stepx stepy : ℤ) : Except String (List IPoint) :=
  if stepx ≤ 0 then .error "X-step must be positive"
  else if stepy ≤ 0 then .error "Y-step must be positive"
  else
    let dx := if xi ≤ xf then stepx else -stepx
    let dy := if yi ≤ yf then stepy else -stepy
    .ok (gridPoints xi yi xf yf dx dy)

/-! ## `snakescan` -/

/-- One x-row of `snakescan`/`gridscan`: the inner
`for x in range(xa, xb + dx, dx)` loop. -/
def rowList (xa xb dx : ℤ) : List ℤ :=
  pyRange xa (xb + dx) dx

/-- The outer `for y in …` loop of `snakescan`, threading the mutable state
`xa, xb, dx, x` of the source.  After each row the source flips the
x-direction when the leaked loop variable `x` (the last x of the row, or its
previous value for an empty row) equals `xa` or `xb`. -/
def snakescanAux (xa xb dx x : ℤ) : List ℤ → List IPoint
  | [] => []
  | y :: ys =>
    let row := rowList xa xb dx
    let x' := row.getLastD x
    if x' = xa ∨ x' = xb then
      (row.map fun xx => (xx, y)) ++ snakescanAux xb xa (-dx) x' ys
    else
      (row.map fun xx => (xx, y)) ++ snakescanAux xa xb dx x' ys

/-- `snakescan(xi, yi, xf, yf)` driven to exhaustion (the source has no
validation and cannot raise). -/
def snakescan (xi yi xf yf : ℤ) : List IPoint :=
  let dx : ℤ := if xi ≤ xf then 1 else -1
  let dy : ℤ := if yi ≤ yf then 1 else -1
  snakescanAux xi xf dx xi (pyRange yi (yf + dy) dy)

/-! ## `hilbertscan`

The source manipulates the step index `t` with the floating-point bitwise
helpers `float_and`/`float_xor` (ported from the activestate recipe at the
bottom of the file) and the float divisions `t / 2`, `t /= 4`.  Every value
of `t` reached here is a non-negative dyadic rational `m · 2⁻ˢ` with few
significant bits, for which IEEE-754 double arithmetic is exact; the
embedding represents it by the exact pair `(m, s)`, on which the float
divisions increment the exponent.  On these values `float_and(1, u)` is the
1s bit of `u` (`⌊u⌋ mod 2`), and `float_and(1, float_xor(t, rx))` with
`rx ∈ {0, 1}` is `(⌊t⌋ mod 2) xor rx`. -/

/-- A non-negative dyadic rational `num · 2⁻ˢʰⁱᶠᵗ`: the exact value of the
floats that `hilbertscan` feeds to the bitwise helpers. -/
structure Dyadic where
  num : ℕ
  shift : ℕ

/-- `t / 2` on the exact dyadic representation. -/
def Dyadic.half (t : Dyadic) : Dyadic :=
  ⟨t.num, t.shift + 1⟩

/-- `t / 4` (the source's `t /= 4`) on the exact dyadic representation. -/
def Dyadic.quarter (t : Dyadic) : Dyadic :=
  ⟨t.num, t.shift + 2⟩

/-- The 1s bit `⌊t⌋ mod 2` of a non-negative dyadic: the value of
`float_and(1, t)` from the source for the values reached in
`hilbertscan`. -/
def Dyadic.bit0 (t : Dyadic) : ℤ :=
  ((t.num / 2 ^ t.shift) % 2 : ℕ)

/-- `hilbertrot(n, x, y, rx, ry)` from the source: rotate/flip a quadrant. -/
def hilbertrot (n x y rx ry : ℤ) : ℤ × ℤ :=
  if ry = 0 then
    if rx = 1 then (n - 1 - y, n - 1 - x) else (y, x)
  else (x, y)

/-- The division loop behind `(n).bit_length()` of Python: halve until
zero, counting steps.  The first argument is fuel; since `n / 2 < n` for
`n ≥ 1`, fuel `n` always suffices, and the fuel-exhausted branch is
unreachable from `bitLength`. -/
def bitLengthAux : ℕ → ℕ → ℕ
  | 0, _ => 0
  | fuel + 1, n => if n = 0 then 0 else bitLengthAux fuel (n / 2) + 1

/-- `(n).bit_length()` of Python on natural numbers. -/
def bitLength (n : ℕ) : ℕ :=
  bitLengthAux n n

/-- The `while (s < size)` decode loop of `hilbertscan` (`s *= 2` from
`s = 1`).  The first argument is fuel: after `k` iterations `s = 2 ^ k` and
`2 ^ size > size`, so fuel `size` always suffices (for `size = 0` the loop
does not run at all) and the fuel-exhausted branch is unreachable from
`hilbertd2xy`. -/
def hilbertd2xyAux (size : ℕ) : ℕ → ℕ → Dyadic → ℤ → ℤ → ℤ × ℤ
  | 0, _, _, x, y => (x, y)
  | fuel + 1, s, t, x, y =>
    if s < size then
      let rx : ℤ := t.half.bit0
      let ry : ℤ := if t.bit0 = rx then 0 else 1
      let p := hilbertrot (s : ℤ) x y rx ry
      hilbertd2xyAux size fuel (2 * s) t.quarter
        (p.1 + (s : ℤ) * rx) (p.2 + (s : ℤ) * ry)
    else (x, y)

/-- The body of `for d in range(distance)` in `hilbertscan`: decode the
point at curve index `d` (`t = d`, `x = y = 0`, `s = 1`). -/
def hilbertd2xy (size d : ℕ) : ℤ × ℤ :=
  hilbertd2xyAux size size 1 ⟨d, 0⟩ 0 0

/-- `hilbertscan(size, distance)` driven to exhaustion:
`size = 2 * (1 << (size - 1).bit_length())`, then the distance check
(`StopIteration("Invalid distance!")`, a `RuntimeError` at the first pull
under PEP 479), then one decoded point per curve index. -/
def hilbertscan (size distance : ℕ) : Except String (List IPoint) :=
  let size2 := 2 * 2 ^ bitLength (size - 1)
  if size2 ^ 2 - 1 < distance then .error "Invalid distance!"
  else .ok ((List.range distance).map fun d => hilbertd2xy size2 d)

/-! ## `ringscan`

The per-radius walk (`while True:` in the source) need not terminate for an
arbitrary metric (an inconsistent metric can let the walk escape to
infinity), so the embedding carries explicit fuel and returns `none` when
the fuel runs out; a `some` result is a faithful complete run of the loop. -/

/-- The clockwise step direction table `steps` of `ringscan`. -/
def ringSteps : ℕ → IPoint
  | 0 => (1, 0)
  | 1 => (1, -1)
  | 2 => (0, -1)
  | 3 => (-1, -1)
  | 4 => (-1, 0)
  | 5 => (-1, 1)
  | 6 => (0, 1)
  | _ => (1, 1)

/-- One radius of `ringscan` (the inner `while True:` loop).  Arguments
mirror the loop state: `initial`, `current`, `direction`, `ntrys`.  Returns
the yielded points, the final `direction` (it persists across radii), and
whether the loop ended because all 8 directions failed (`ntrys == nsteps`,
which also breaks the outer radius loop). -/
def ringWalk (metric : IPoint → IPoint → ℤ) (center : IPoint) (distance : ℤ) :
    ℕ → IPoint → IPoint → ℕ → ℕ → Option (List IPoint × ℕ × Bool)
  | 0, _, _, _, _ => none
  | fuel + 1, initial, current, direction, ntrys =>
    if distance = 0 then some ([current], direction, false)
    else
      let step := ringSteps direction
      let nextpoint := (current.1 + step.1, current.2 + step.2)
      if metric center nextpoint ≠ distance then
        if ntrys + 1 = 8 then some ([], direction, true)
        else ringWalk metric center distance fuel initial current
          ((direction + 1) % 8) (ntrys + 1)
      else
        if nextpoint = initial then some ([current], direction, false)
        else
          (ringWalk metric center distance fuel initial nextpoint direction 0).map
            fun r => (current :: r.1, r.2.1, r.2.2)

/-- The outer `for distance in range(r1, r2 + rstep, rstep)` loop of
`ringscan`, threading the persistent `direction` and stopping the whole
generator when a radius fails in all 8 directions. -/
def ringRadii (metric : IPoint → IPoint → ℤ) (center : IPoint) (fuel : ℕ) :
    List ℤ → ℕ → Option (List IPoint)
  | [], _ => some []
  | distance :: rest, direction =>
    let initial : IPoint := (center.1, center.2 + distance)
    match ringWalk metric center distance fuel initial initial direction 0 with
    | none => none
    | some (l, direction', failed) =>
      if failed then some l
      else (ringRadii metric center fuel rest direction').map fun r => l ++ r

/-- `ringscan(x0, y0, r1, r2, metric)` driven to exhaustion (with fuel for
the per-radius walks).  The radius validation is in the generator body, so
in Python it is raised at the first pull. -/
def ringscan (metric : IPoint → IPoint → ℤ) (x0 y0 r1 r2 : ℤ) (fuel : ℕ) :
    Except String (Option (List IPoint)) :=
  if r1 < 0 then .error "Initial radius must be non-negative"
  else if r2 < 0 then .error "Final radius must be non-negative"
  else
    let rstep : ℤ := if r1 ≤ r2 then 1 else -1
    .ok (ringRadii metric (x0, y0) fuel (pyRange r1 (r2 + rstep) rstep) 0)

/-! ## `circlescan`

The source computes each octant with an integer midpoint walk and rotates
it with matrices whose off-axis entries are the float literal
`a = 0.707107`; each emitted coordinate is the center plus an integer
combination of `1` and `a`, which the `Micro` fixed-point grid carries
exactly (see the comment at `Micro`). -/

/-- Python 3 `round` to an integer (nearest, ties to even) on the
fixed-point grid. -/
def pyRound (n : Micro) : ℤ :=
  let f := n.fdiv 1000000
  let r := n - 1000000 * f
  if 2 * r < 1000000 then f
  else if 1000000 < 2 * r then f + 1
  else if f % 2 = 0 then f else f + 1

/-- `snap.__next__`: round both coordinates to the nearest integer. -/
def snapPoint (p : FPoint) : IPoint :=
  (pyRound p.1, pyRound p.2)

/-- The rotation matrix table of `circlescan`, with `a = 0.707107`
(rows by multiples of 45°): entry `(angle)` is `((r00, r01), (r10, r11))`,
on the fixed-point grid. -/
def circleRot (angle : ℕ) : (Micro × Micro) × (Micro × Micro) :=
  let a : Micro := 707107
  let o : Micro := microInt 1
  match angle with
  | 0 => ((o, 0), (0, o))
  | 1 => ((a, a), (-a, a))
  | 2 => ((0, o), (-o, 0))
  | 3 => ((-a, a), (-a, -a))
  | 4 => ((-o, 0), (0, -o))
  | 5 => ((-a, -a), (a, -a))
  | 6 => ((0, -o), (o, 0))
  | _ => ((a, -a), (a, a))

/-- The `while x < y` midpoint loop of `circlescan`: the `(x, y)` pairs
visited for one octant at the given radius, with the error term `d`
(initially `1 - distance`) updated as in the source.  The first argument is
fuel: each iteration increments `x` and never increases `y`, so the measure
`y - x` shrinks every step and fuel `y - x` (i.e. `distance` at the call in
`circleRadius`) always suffices; the fuel-exhausted branch is unreachable. -/
def circleOctant : ℕ → ℕ → ℕ → ℤ → List (ℕ × ℕ)
  | 0, _, _, _ => []
  | fuel + 1, x, y, d =>
    if x < y then
      (x, y) ::
        (if d < 0 then circleOctant fuel (x + 1) y (d + 3 + 2 * x)
         else circleOctant fuel (x + 1) (y - 1) (d + 5 - 2 * ((y : ℤ) - (x : ℤ))))
    else []

/-- One octant's emissions for one radius: rotate each midpoint step by
`circleRot angle` (each coordinate is the matrix row dotted with the
integer point `(x, y)`, so the fixed-point scale is preserved), translate
by the center, and yield it unless its rounded point was emitted for the
previous radius; rounded points are collected into `current`. -/
def circleAngle (x0 y0 : Micro) (previous : List IPoint)
    (angle : ℕ) (steps : List (ℕ × ℕ)) :
    List FPoint × List IPoint :=
  match steps with
  | [] => ([], [])
  | (x, y) :: rest =>
    let m := circleRot angle
    let xr := x0 + (m.1.1 * (x : ℤ) + m.1.2 * (y : ℤ))
    let yr := y0 + (m.2.1 * (x : ℤ) + m.2.2 * (y : ℤ))
    let point := snapPoint (xr, yr)
    let r := circleAngle x0 y0 previous angle rest
    if point ∈ previous then r
    else ((xr, yr) :: r.1, point :: r.2)

/-- The `for angle in range(nangles)` loop for one radius: all eight
octants, accumulating the yielded points and the rounded `current` list. -/
def circleRadius (x0 y0 : Micro) (previous : List IPoint) (distance : ℕ) :
    List FPoint × List IPoint :=
  (List.range 8).foldl
    (fun acc angle =>
      let r := circleAngle x0 y0 previous angle
        (circleOctant distance 0 distance (1 - (distance : ℤ)))
      (acc.1 ++ r.1, acc.2 ++ r.2))
    ([], [])

/-- The radius loop of `circlescan`: radius `0` yields the center (leaving
`previous` untouched), any other radius runs the octant scan and replaces
`previous` by the rounded points of the current radius. -/
def circleRadii (x0 y0 : Micro) : List ℤ → List IPoint → List FPoint
  | [], _ => []
  | distance :: rest, previous =>
    if distance = 0 then (x0, y0) :: circleRadii x0 y0 rest previous
    else
      let r := circleRadius x0 y0 previous distance.toNat
      r.1 ++ circleRadii x0 y0 rest r.2

/-- `circlescan(x0, y0, r1, r2)` driven to exhaustion.  The radius
validation is in the generator body, so in Python it is raised at the first
pull; see `circlescanCall`. -/
def circlescan (x0 y0 : Micro) (r1 r2 : ℤ) : Except String (List FPoint) :=
  if r1 < 0 then .error "Initial radius must be non-negative"
  else if r2 < 0 then .error "Final radius must be non-negative"
  else
    let rstep : ℤ := if r1 ≤ r2 then 1 else -1
    .ok (circleRadii x0 y0 (pyRange r1 (r2 + rstep) rstep) [])

/-! ## Transformation machines

Each transformation wraps one upstream stream.  The upstream is embedded as
the list of points it has still to produce (a Python generator that is
exhausted keeps raising `StopIteration`, which the empty list models), and
each `__next__` is a function from the machine's state to
`Option point × state` — `none` is the `StopIteration` signal, and the
returned state is what a *subsequent* call would run on. -/

/-- The constructor arguments stored by `clip.__init__`. -/
structure ClipCfg where
  minx : ℤ
  maxx : ℤ
  miny : ℤ
  maxy : ℤ
  predicate : Option (ℤ → ℤ → Bool)
  abort : Bool

/-- `clip.__next__`: pull upstream until a point passes the predicate and
the bounds; with `abort` set, a failing point raises `StopIteration`
instead (the upstream points already consumed stay consumed). -/
def clipNext (c : ClipCfg) : List IPoint → Option IPoint × List IPoint
  | [] => (none, [])
  | (x, y) :: rest =>
    let predFail : Bool := match c.predicate with
      | some pred => !pred x y
      | none => false
    if predFail then
      if c.abort then (none, rest) else clipNext c rest
    else if x < c.minx ∨ c.maxx < x ∨ y < c.miny ∨ c.maxy < y then
      if c.abort then (none, rest) else clipNext c rest
    else (some (x, y), rest)

/-- The state of a `skip` instance: the upstream and the 0-based cursor
`self.index` (initially `-1`). -/
structure SkipState where
  scan : List IPoint
  index : ℤ

/-- `skip.__init__`: the four validations, in source order.  A successful
construction yields the initial state. -/
def skipInit (scan : List IPoint) (start stop step : ℤ) :
    Except String SkipState :=
  if start < 0 then .error "Start must be non-negative"
  else if stop < 0 then .error "Stop must be non-negative"
  else if stop < start then .error "Stop must be greater than start"
  else if step ≤ 0 then .error "Step must be positive"
  else .ok ⟨scan, -1⟩

/-- The `while True:` loop of `skip.__next__`, recursing on the upstream. -/
def skipNextAux (start stop step : ℤ) : List IPoint → ℤ → Option IPoint × SkipState
  | [], index => (none, ⟨[], index⟩)
  | p :: rest, index =>
    let i := index + 1
    if i < start then skipNextAux start stop step rest i
    else if stop < i then (none, ⟨rest, i⟩)
    else if (i - start) % step ≠ 0 then skipNextAux start stop step rest i
    else (some p, ⟨rest, i⟩)

/-- `skip.__next__`: pull upstream, advance the cursor, drop points before
`start` or misaligned to `step`, and raise `StopIteration` once the cursor
exceeds `stop`. -/
def skipNext (start stop step : ℤ) (s : SkipState) : Option IPoint × SkipState :=
  skipNextAux start stop step s.scan s.index

/-- All points a `skip` instance emits from cursor `index` on, i.e.
`skip.__next__` iterated to exhaustion. -/
def skipEmit (start stop step : ℤ) : List IPoint → ℤ → List IPoint
  | [], _ => []
  | p :: rest, index =>
    let i := index + 1
    if i < start then skipEmit start stop step rest i
    else if stop < i then []
    else if (i - start) % step ≠ 0 then skipEmit start stop step rest i
    else p :: skipEmit start stop step rest i

/-- `enumerate` with an explicit first index, pairing each upstream point
with its 0-based sequence index. -/
def enumFrom (i : ℤ) : List IPoint → List (ℤ × IPoint)
  | [] => []
  | p :: l => (i, p) :: enumFrom (i + 1) l

/-- The selection rule of `skip`: the point with 0-based sequence index `k`
is kept when `start ≤ k ≤ stop` and `k` is aligned to `step` from
`start`. -/
def skipKeep (start stop step : ℤ) (k : ℤ) : Bool :=
  start ≤ k ∧ k ≤ stop ∧ (k - start) % step = 0

/-- The reservoir-population loop of `reservoir.__init__`
(`for index, point in enumerate(scan)`): the first `npoints` points are
appended; afterwards point `index` replaces slot `j = randint(0, index)`
when `j < npoints`.  The random draw is the explicit `f` (Python guarantees
`0 ≤ f index ≤ index`; no theorem below needs that bound, since a slot
`j < npoints` is always within the filled reservoir). -/
def reservoirPopulate (npoints : ℤ) (f : ℕ → ℕ) :
    List IPoint → ℕ → List IPoint → List IPoint
  | [], _, res => res
  | p :: rest, index, res =>
    if (index : ℤ) < npoints then
      reservoirPopulate npoints f rest (index + 1) (res ++ [p])
    else
      let j := f index
      if (j : ℤ) < npoints then
        reservoirPopulate npoints f rest (index + 1) (res.set j p)
      else reservoirPopulate npoints f rest (index + 1) res

/-- `random.shuffle`, modelled as a permutation driven by the explicit
random source `g`: repeatedly pick the next output element among the
remaining ones (`g k % (k + 1)` is the uniform draw on `0‥k`).  The first
argument is fuel; each step removes exactly one element, so fuel
`l.length` (as supplied by `pyShuffle`) always suffices. -/
def pyShuffleAux (g : ℕ → ℕ) : ℕ → List IPoint → List IPoint
  | 0, _ => []
  | _, [] => []
  | fuel + 1, p :: l =>
    let j := g l.length % (l.length + 1)
    (p :: l).getD j p :: pyShuffleAux g fuel ((p :: l).eraseIdx j)

/-- `random.shuffle` on a list. -/
def pyShuffle (g : ℕ → ℕ) (l : List IPoint) : List IPoint :=
  pyShuffleAux g l.length l

/-- The state of a `reservoir` instance after construction: the sampled
list and the replay cursor `self.count`. -/
structure ReservoirState where
  reservoir : List IPoint
  count : ℕ

/-- `reservoir.__init__`: validate `npoints`, then eagerly drain the whole
upstream through the population loop and shuffle the result. -/
def reservoirInit (scan : List IPoint) (npoints : ℤ) (f g : ℕ → ℕ) :
    Except String ReservoirState :=
  if npoints ≤ 0 then .error "Sample size must be positive"
  else .ok ⟨pyShuffle g (reservoirPopulate npoints f scan 0 []), 0⟩

/-- `reservoir.__next__`: replay the sampled list one point at a time;
`StopIteration` once the cursor reaches the end. -/
def reservoirNext (s : ReservoirState) : Option IPoint × ReservoirState :=
  if h : s.count < s.reservoir.length then
    (some (s.reservoir.get ⟨s.count, h⟩), ⟨s.reservoir, s.count + 1⟩)
  else (none, s)

/-- `reservoir.__next__` iterated from a given state, with fuel (the cursor
grows by one per emission, so fuel `res.length` always reaches
exhaustion). -/
def reservoirDriveAux (res : List IPoint) : ℕ → ℕ → List IPoint
  | 0, _ => []
  | fuel + 1, count =>
    if h : count < res.length then
      res.get ⟨count, h⟩ :: reservoirDriveAux res fuel (count + 1)
    else []

/-- `reservoir.__next__` iterated to exhaustion from a given state. -/
def reservoirDrive (res : List IPoint) (count : ℕ) : List IPoint :=
  reservoirDriveAux res res.length count

/-! ## Construction-time behaviour of the generator functions

`circlescan`, `gridscan`, `ringscan`, `hilbertscan` and `walkscan` are
Python *generator functions*: calling one only packs the arguments into a
suspended generator object; the body — including its `raise ValueError`
validations — does not run until the first `next()`.  The `…Call`
definitions embed the call itself (which therefore cannot fail), while the
corresponding run definitions above embed driving the body. -/

/-- The suspended generator produced by calling `circlescan(x0, y0, r1, r2)`:
just the packed arguments, whatever their values. -/
structure CirclescanGen where
  x0 : Micro
  y0 : Micro
  r1 : ℤ
  r2 : ℤ

/-- Calling `circlescan` never raises: it returns a suspended generator. -/
def circlescanCall (x0 y0 : Micro) (r1 r2 : ℤ) : CirclescanGen :=
  ⟨x0, y0, r1, r2⟩

/-- Driving the suspended `circlescan` generator (first `next()` runs the
body, where the validation lives). -/
def circlescanGenRun (gen : CirclescanGen) : Except String (List FPoint) :=
  circlescan gen.x0 gen.y0 gen.r1 gen.r2

/-- The suspended generator produced by calling `ringscan`. -/
structure RingscanGen where
  x0 : ℤ
  y0 : ℤ
  r1 : ℤ
  r2 : ℤ

/-- Calling `ringscan` never raises: it returns a suspended generator. -/
def ringscanCall (x0 y0 r1 r2 : ℤ) : RingscanGen :=
  ⟨x0, y0, r1, r2⟩

/-- Driving the suspended `ringscan` generator with the given metric. -/
def ringscanGenRun (metric : IPoint → IPoint → ℤ) (gen : RingscanGen)
    (fuel : ℕ) : Except String (Option (List IPoint)) :=
  ringscan metric gen.x0 gen.y0 gen.r1 gen.r2 fuel

/-- The suspended generator produced by calling `gridscan`. -/
structure GridscanGen where
  xi : ℤ
  yi : ℤ
  xf : ℤ
  yf : ℤ
  stepx : ℤ
  stepy : ℤ

/-- Calling `gridscan` never raises: it returns a suspended generator. -/
def gridscanCall (xi yi xf yf stepx stepy : ℤ) : GridscanGen :=
  ⟨xi, yi, xf, yf, stepx, stepy⟩

/-- Driving the suspended `gridscan` generator. -/
def gridscanGenRun (gen : GridscanGen) : Except String (List IPoint) :=
  gridscan gen.xi gen.yi gen.xf gen.yf gen.stepx gen.stepy

/-- The suspended generator produced by calling `walkscan`. -/
structure WalkscanGen where
  x0 : ℤ
  y0 : ℤ
  xn : ℚ
  xp : ℚ
  yn : ℚ
  yp : ℚ

/-- Calling `walkscan` never raises: it returns a suspended generator. -/
def walkscanCall (x0 y0 : ℤ) (xn xp yn yp : ℚ) : WalkscanGen :=
  ⟨x0, y0, xn, xp, yn, yp⟩

/-- The infinite random-walk loop of `walkscan`, truncated to `n` pulls;
`rand k` is the `random.random()` draw when `k` pulls remain. -/
def walkLoop (cxn cxp cyn : ℚ) (rand : ℕ → ℚ) : ℕ → ℤ → ℤ → List IPoint
  | 0, _, _ => []
  | n + 1, x, y =>
    (x, y) ::
      (let probability := rand n
       if probability ≤ cxn then walkLoop cxn cxp cyn rand n (x - 1) y
       else if probability ≤ cxp then walkLoop cxn cxp cyn rand n (x + 1) y
       else if probability ≤ cyn then walkLoop cxn cxp cyn rand n x (y - 1)
       else walkLoop cxn cxp cyn rand n x (y + 1))

/-- Driving the suspended `walkscan` generator for `n` pulls: the body
validates the probabilities, normalizes them (an all-zero total is a
`ZeroDivisionError`, outside the claims), then walks. -/
def walkscanGenRun (gen : WalkscanGen) (rand : ℕ → ℚ) (n : ℕ) :
    Except String (List IPoint) :=
  if gen.xn < 0 then .error "Negative x probabilty must be non-negative"
  else if gen.xp < 0 then .error "Positive x probabilty must be non-negative"
  else if gen.yn < 0 then .error "Negative y probabilty must be non-negative"
  else if gen.yp < 0 then .error "Positive y probabilty must be non-negative"
  else
    let total := gen.xp + gen.xn + gen.yp + gen.yn
    let cxn := gen.xn / total
    let cxp := cxn + gen.xp / total
    let cyn := cxp + gen.yn / total
    .ok (walkLoop cxn cxp cyn rand n gen.x0 gen.y0)

/-- `scale.__init__`: the two validations, in source order. -/
def scaleInit (sx sy : ℚ) : Except String (ℚ × ℚ) :=
  if sx ≤ 0 then .error "X-scale must be positive"
  else if sy ≤ 0 then .error "Y-scale must be positive"
  else .ok (sx, sy)

/-- `sample.__init__`: the probability-range validation. -/
def sampleInit (probability : ℚ) : Except String ℚ :=
  if probability < 0 ∨ 1 < probability then
    .error "Sampling probability must be in range [0,1]"
  else .ok probability

/-! ## Notions used by the statements -/

/-- Two grid points are unit-adjacent: they differ by exactly one unit in
exactly one coordinate. -/
def adjacentPt (p q : IPoint) : Prop :=
  (|q.1 - p.1| = 1 ∧ q.2 = p.2) ∨ (q.1 = p.1 ∧ |q.2 - p.2| = 1)

instance (p q : IPoint) : Decidable (adjacentPt p q) :=
  decidable_of_iff ((|q.1 - p.1| = 1 ∧ q.2 = p.2) ∨ (q.1 = p.1 ∧ |q.2 - p.2| = 1)) Iff.rfl

/-- Every two consecutive points of the list are unit-adjacent. -/
def chainAdjacent : List IPoint → Prop
  | p :: q :: l => adjacentPt p q ∧ chainAdjacent (q :: l)
  | _ => True

instance chainAdjacentDec : (l : List IPoint) → Decidable (chainAdjacent l)
  | [] => .isTrue trivial
  | [_] => .isTrue trivial
  | p :: q :: l =>
    @instDecidableAnd _ _ (inferInstance : Decidable (adjacentPt p q))
      (chainAdjacentDec (q :: l))

/-- The x-coordinates of the emitted points lying on the horizontal row
`y`, in emission order. -/
def rowPoints (l : List IPoint) (y : ℤ) : List ℤ :=
  (l.filter fun p => p.2 = y).map Prod.fst

/-- A well-oriented unit row configuration: the direction `d` is the unit
step pointing from `a` towards `b`, as `snakescan` maintains for its
`xa, xb, dx` state. -/
def goodRow (a b d : ℤ) : Prop :=
  (d = 1 ∧ a ≤ b) ∨ (d = -1 ∧ b ≤ a)

/-- Alternating row traversal: row `k` is `R` when the phase is even and
`R.reverse` when it is odd.  (`snakescan` is proved below to produce
exactly this shape.) -/
def altRows (R : List ℤ) : Bool → List ℤ → List IPoint
  | _, [] => []
  | phase, y :: ys =>
    ((if phase then R.reverse else R).map fun x => (x, y)) ++
      altRows R (!phase) ys

/-- The results of the pulls made after the state `s` of a `skip`
instance: element `k` is the result of the `(k+1)`-st further pull. -/
def skipPulls (start stop step : ℤ) (s : SkipState) : ℕ → Option IPoint
  | 0 => (skipNext start stop step s).1
  | k + 1 => skipPulls start stop step (skipNext start stop step s).2 k

/-- The results of the pulls made after the state `s` of a `reservoir`
instance. -/
def reservoirPulls (s : ReservoirState) : ℕ → Option IPoint
  | 0 => (reservoirNext s).1
  | k + 1 => reservoirPulls (reservoirNext s).2 k

/-- The results of the pulls made after the upstream state `l` of a `clip`
instance. -/
def clipPulls (c : ClipCfg) (l : List IPoint) : ℕ → Option IPoint
  | 0 => (clipNext c l).1
  | k + 1 => clipPulls c (clipNext c l).2 k

/-!
# Theorems

One theorem per claim of the specification (with separate counterexample
theorems where the claim as stated fails on the code), plus the helper
lemmas they need.
-/

/-! ## C9: the 4×4 Hilbert traversal -/

/-- **C9.** `hilbertscan(4, 16)` emits exactly 16 points forming the
complete Hilbert-curve traversal of the 4×4 grid: the emitted list is a
permutation of the full list of cells `(x, y)` with `0 ≤ x < 4` and
`0 ≤ y < 4` (so every cell is visited exactly once), and every two
consecutive emitted points are unit-adjacent. -/
theorem hilbertscan_4_16_traversal :
    (hilbertscan 4 16).isOk = true ∧
    ((hilbertscan 4 16).toOption.getD []).length = 16 ∧
    (∀ c ∈ (List.range 4).flatMap fun x => (List.range 4).map fun y => ((x : ℤ), (y : ℤ)),
      ((hilbertscan 4 16).toOption.getD []).count c = 1) ∧
    chainAdjacent ((hilbertscan 4 16).toOption.getD []) := by
  decide

/-! ## C3: the `hilbertscan` distance bound -/

/-- **C3 counterexample.** The claim predicts an error whenever
`distance ≥ next_pow2(size)² `; at `size = 4`, `distance = 16` that bound
(`(2 ^ bitLength 3)² = 16 ≤ 16`) is met, yet `hilbertscan 4 16` raises no
error — the code doubles the rounded size. -/
theorem hilbertscan_threshold_counterexample :
    (2 ^ bitLength (4 - 1)) ^ 2 ≤ 16 ∧ (hilbertscan 4 16).isOk = true := by
  decide

/-- **C3 (amended).** `hilbertscan(size, distance)` replaces `size` by
*twice* the next power of two, `s = 2 · 2 ^ (size - 1).bit_length()`, and
fails with an error exactly when `distance ≥ s²` (the source condition
`distance > s² - 1`); for any smaller distance no error is raised. -/
theorem hilbertscan_error_iff : ∀ size distance : ℕ, 1 ≤ size →
    ((hilbertscan size distance).isOk = false ↔
      (2 * 2 ^ bitLength (size - 1)) ^ 2 ≤ distance) := by
  intro size distance _
  have hpos : 0 < (2 * 2 ^ bitLength (size - 1)) ^ 2 := by positivity
  simp only [hilbertscan]
  split
  next h =>
    simp only [Except.isOk]
    exact ⟨fun _ => Nat.le_of_pred_lt h, fun _ => rfl⟩
  next h =>
    simp only [Except.isOk]
    constructor
    · intro hfalse
      cases hfalse
    · intro hle
      exact absurd (Nat.lt_of_lt_of_le (Nat.sub_lt hpos Nat.one_pos) hle) h

/-- Witness for `hilbertscan_error_iff`: at `size = 4` the internal size is
`8`, and `distance = 64` is rejected. -/
theorem hilbertscan_error_iff_witness :
    1 ≤ 4 ∧ ((hilbertscan 4 64).isOk = false ↔ (2 * 2 ^ bitLength (4 - 1)) ^ 2 ≤ 64) :=
  ⟨by decide, hilbertscan_error_iff 4 64 (by decide)⟩

/-! ## C6: `circlescan(0,0,0,2)` composed with `snap` -/

/-- **C6.** `circlescan(0, 0, 0, 2)` composed with `snap` emits exactly 21
points, the first emitted point is `(0, 0)`, and no integer grid cell
appears twice anywhere in the emitted sequence. -/
theorem circlescan_snap_0_2 :
    (circlescan (microInt 0) (microInt 0) 0 2).isOk = true ∧
    (((circlescan (microInt 0) (microInt 0) 0 2).toOption.getD []).map snapPoint) =
      [(0, 0), (0, 1), (1, 1), (1, 0), (1, -1), (0, -1), (-1, -1), (-1, 0), (-1, 1),
       (0, 2), (1, 2), (2, 1), (2, 0), (2, -1), (1, -2), (0, -2), (-1, -2), (-2, -1),
       (-2, 0), (-2, 1), (-1, 2)] ∧
    (((circlescan (microInt 0) (microInt 0) 0 2).toOption.getD []).map snapPoint).length = 21 ∧
    (((circlescan (microInt 0) (microInt 0) 0 2).toOption.getD []).map snapPoint).head? =
      some (0, 0) ∧
    (((circlescan (microInt 0) (microInt 0) 0 2).toOption.getD []).map snapPoint).Nodup := by
  decide

/-! ## C1: `gridscan` count and bounds -/

/-- **C1 counterexample.** For `gridscan(0, 0, 3, 0, 2, 1)` the claim's
count `⌈(|3-0|+1)/2⌉ · ⌈(|0-0|+1)/1⌉ = 2` and its bound `x ≤ max(0, 3)`
both fail: the code emits the 3 points `(0,0), (2,0), (4,0)`, and `(4,0)`
lies outside the claimed bounding box. -/
theorem gridscan_count_counterexample :
    gridscan 0 0 3 0 2 1 = .ok [(0, 0), (2, 0), (4, 0)] ∧
    (((3 : ℤ) - 0).natAbs + 1 + (2 - 1)) / 2 * ((((0 : ℤ) - 0).natAbs + 1 + (1 - 1)) / 1) = 2 ∧
    ([(0, 0), (2, 0), (4, 0)] : List IPoint).length ≠ 2 ∧
    ((4 : ℤ), (0 : ℤ)) ∈ ([(0, 0), (2, 0), (4, 0)] : List IPoint) ∧
    ¬ (4 : ℤ) ≤ max (0 : ℤ) 3 :=
  ⟨rfl, by decide, by decide, by decide, by decide⟩

/-! ## C4: construction-time versus first-pull validation -/

/-- **C4 counterexample.** `circlescan` is a generator function, so calling
it with a negative radius *does* create the stream (no validation runs at
construction); the `ValueError` surfaces only when the stream is first
pulled. -/
theorem construction_timing_counterexample :
    circlescanCall (microInt 0) (microInt 0) (-1) 0 = ⟨microInt 0, microInt 0, -1, 0⟩ ∧
    circlescanGenRun (circlescanCall (microInt 0) (microInt 0) (-1) 0) =
      .error "Initial radius must be non-negative" :=
  ⟨rfl, rfl⟩

/-- **C4 (amended).** The class-based transformations (`skip`, `scale`,
`sample`, `reservoir`) report invalid parameters immediately at
construction, before any point is pulled, and the stream is never created;
the generator functions (`circlescan`, `ringscan`, `gridscan`, `walkscan`)
always succeed at construction — the call merely packs the arguments — and
report their validation failures (negative radius, non-positive step,
negative probability) at the first pull. -/
theorem construction_validation_behaviour :
    (∀ (scan : List IPoint) (start stop step : ℤ), stop < start →
      (skipInit scan start stop step).isOk = false) ∧
    (∀ (scan : List IPoint) (start stop step : ℤ), step ≤ 0 →
      (skipInit scan start stop step).isOk = false) ∧
    (∀ sx sy : ℚ, sx ≤ 0 ∨ sy ≤ 0 → (scaleInit sx sy).isOk = false) ∧
    (∀ p : ℚ, p < 0 ∨ 1 < p → (sampleInit p).isOk = false) ∧
    (∀ (scan : List IPoint) (npoints : ℤ) (f g : ℕ → ℕ), npoints ≤ 0 →
      (reservoirInit scan npoints f g).isOk = false) ∧
    (∀ (x0 y0 : Micro) (r1 r2 : ℤ), r1 < 0 ∨ r2 < 0 →
      circlescanCall x0 y0 r1 r2 = ⟨x0, y0, r1, r2⟩ ∧
      (circlescanGenRun (circlescanCall x0 y0 r1 r2)).isOk = false) ∧
    (∀ (x0 y0 r1 r2 : ℤ) (metric : IPoint → IPoint → ℤ) (fuel : ℕ),
      r1 < 0 ∨ r2 < 0 →
      ringscanCall x0 y0 r1 r2 = ⟨x0, y0, r1, r2⟩ ∧
      (ringscanGenRun metric (ringscanCall x0 y0 r1 r2) fuel).isOk = false) ∧
    (∀ xi yi xf yf sx sy : ℤ, sx ≤ 0 ∨ sy ≤ 0 →
      gridscanCall xi yi xf yf sx sy = ⟨xi, yi, xf, yf, sx, sy⟩ ∧
      (gridscanGenRun (gridscanCall xi yi xf yf sx sy)).isOk = false) ∧
    (∀ (x0 y0 : ℤ) (xn xp yn yp : ℚ) (rand : ℕ → ℚ) (n : ℕ),
      xn < 0 ∨ xp < 0 ∨ yn < 0 ∨ yp < 0 →
      walkscanCall x0 y0 xn xp yn yp = ⟨x0, y0, xn, xp, yn, yp⟩ ∧
      (walkscanGenRun (walkscanCall x0 y0 xn xp yn yp) rand n).isOk = false) := by
  refine ⟨?_, ?_, ?_, ?_, ?_, ?_, ?_, ?_, ?_⟩
  · intro scan start stop step h
    unfold skipInit
    repeat' split
    all_goals first | rfl | omega
  · intro scan start stop step h
    unfold skipInit
    repeat' split
    all_goals first | rfl | omega
  · intro sx sy h
    unfold scaleInit
    repeat' split
    all_goals first | rfl | (exfalso; rcases h with h | h <;> simp_all)
  · intro p h
    unfold sampleInit
    split
    · rfl
    · simp_all
  · intro scan npoints f g h
    unfold reservoirInit
    split
    · rfl
    · omega
  · intro x0 y0 r1 r2 h
    refine ⟨rfl, ?_⟩
    unfold circlescanGenRun circlescanCall circlescan
    dsimp only
    repeat' split
    all_goals first | rfl | omega
  · intro x0 y0 r1 r2 metric fuel h
    refine ⟨rfl, ?_⟩
    unfold ringscanGenRun ringscanCall ringscan
    dsimp only
    repeat' split
    all_goals first | rfl | omega
  · intro xi yi xf yf sx sy h
    refine ⟨rfl, ?_⟩
    unfold gridscanGenRun gridscanCall gridscan
    dsimp only
    repeat' split
    all_goals first | rfl | omega
  · intro x0 y0 xn xp yn yp rand n h
    refine ⟨rfl, ?_⟩
    unfold walkscanGenRun walkscanCall
    dsimp only
    repeat' split
    all_goals first | rfl | (exfalso; rcases h with h | h | h | h <;> simp_all)

/-- Witness for `construction_validation_behaviour` at concrete invalid
parameters. -/
theorem construction_validation_behaviour_witness :
    (skipInit [] 1 0 1).isOk = false ∧
    (skipInit [] 0 5 0).isOk = false ∧
    (scaleInit (-1) 1).isOk = false ∧
    (sampleInit 2).isOk = false ∧
    (reservoirInit [] 0 (fun _ => 0) (fun _ => 0)).isOk = false ∧
    ((circlescanGenRun (circlescanCall 0 0 (-1) 0)).isOk = false) ∧
    ((ringscanGenRun chebyshev (ringscanCall 0 0 (-1) 0) 10).isOk = false) ∧
    ((gridscanGenRun (gridscanCall 0 0 2 2 0 1)).isOk = false) ∧
    ((walkscanGenRun (walkscanCall 0 0 (-1) 1 1 1) (fun _ => 0) 3).isOk = false) :=
  ⟨construction_validation_behaviour.1 [] 1 0 1 (by decide),
   construction_validation_behaviour.2.1 [] 0 5 0 (by decide),
   (construction_validation_behaviour.2.2.1 (-1) 1 (.inl (by decide))),
   (construction_validation_behaviour.2.2.2.1 2 (.inr (by decide))),
   (construction_validation_behaviour.2.2.2.2.1 [] 0 (fun _ => 0) (fun _ => 0) (by decide)),
   (construction_validation_behaviour.2.2.2.2.2.1 0 0 (-1) 0 (.inl (by decide))).2,
   (construction_validation_behaviour.2.2.2.2.2.2.1 0 0 (-1) 0 chebyshev 10 (.inl (by decide))).2,
   (construction_validation_behaviour.2.2.2.2.2.2.2.1 0 0 2 2 0 1 (.inl (by decide))).2,
   (construction_validation_behaviour.2.2.2.2.2.2.2.2 0 0 (-1) 1 1 1 (fun _ => 0) 3
     (.inl (by decide))).2⟩

/-! ## C2: exhaustion as a terminal signal -/

/-- **C2 counterexample.** `clip` with `abort = True` does not treat
exhaustion as terminal: over the upstream `[(-1, 0), (5, 0)]` with
`minx = 0`, the first pull hits the out-of-bounds point and aborts
(signals exhaustion), yet the next pull emits the point `(5, 0)`. -/
theorem clip_abort_not_terminal :
    (clipNext ⟨0, 9, -9, 9, none, true⟩ [(-1, 0), (5, 0)]).1 = none ∧
    clipPulls ⟨0, 9, -9, 9, none, true⟩
      (clipNext ⟨0, 9, -9, 9, none, true⟩ [(-1, 0), (5, 0)]).2 0 = some (5, 0) :=
  ⟨rfl, rfl⟩

/-- Once a `skip` cursor has passed `stop` (or will pass it on this pull),
the pull signals exhaustion and leaves the cursor past `stop` (or the
upstream empty). -/
theorem skipNextAux_none_of_stop (start stop step : ℤ) :
    ∀ (l : List IPoint) (i : ℤ), stop < i →
      (skipNextAux start stop step l i).1 = none ∧
      ((skipNextAux start stop step l i).2.scan = [] ∨
        stop < (skipNextAux start stop step l i).2.index) := by
  intro l
  induction l with
  | nil => exact fun i _ => ⟨rfl, .inl rfl⟩
  | cons p rest ih =>
    intro i h
    simp only [skipNextAux]
    split
    · exact ih (i + 1) (by omega)
    · split
      next h2 => exact ⟨rfl, .inr (by dsimp only; omega)⟩
      next h2 => exact absurd (by omega : stop < i + 1) h2

/-- Whenever a `skip` pull signals exhaustion, the state it leaves behind
has either an empty upstream or a cursor past `stop`. -/
theorem skipNextAux_none_char (start stop step : ℤ) :
    ∀ (l : List IPoint) (i : ℤ),
      (skipNextAux start stop step l i).1 = none →
      ((skipNextAux start stop step l i).2.scan = [] ∨
        stop < (skipNextAux start stop step l i).2.index) := by
  intro l
  induction l with
  | nil => exact fun i _ => .inl rfl
  | cons p rest ih =>
    intro i
    simp only [skipNextAux]
    split
    · exact ih (i + 1)
    · split
      next h => exact fun _ => .inr h
      · split
        · exact ih (i + 1)
        · intro hcontra
          cases hcontra

/-- From a state with an empty upstream or a cursor past `stop`, a `skip`
pull signals exhaustion and preserves that property. -/
theorem skipNext_inv (start stop step : ℤ) (s : SkipState)
    (h : s.scan = [] ∨ stop < s.index) :
    (skipNext start stop step s).1 = none ∧
    ((skipNext start stop step s).2.scan = [] ∨
      stop < (skipNext start stop step s).2.index) := by
  rcases h with h | h
  · unfold skipNext
    rw [h]
    exact ⟨rfl, .inl rfl⟩
  · exact skipNextAux_none_of_stop start stop step s.scan s.index h

/-- All further pulls from an exhausted-state `skip` signal exhaustion. -/
theorem skipPulls_none_of_inv (start stop step : ℤ) :
    ∀ (k : ℕ) (s : SkipState), (s.scan = [] ∨ stop < s.index) →
      skipPulls start stop step s k = none := by
  intro k
  induction k with
  | zero => exact fun s h => (skipNext_inv start stop step s h).1
  | succ k ih => exact fun s h => ih _ (skipNext_inv start stop step s h).2

/-- An exhausted `reservoir` pull leaves the state unchanged. -/
theorem reservoirNext_none_fix (s : ReservoirState)
    (h : (reservoirNext s).1 = none) : reservoirNext s = (none, s) := by
  by_cases hc : s.count < s.reservoir.length
  · exfalso
    unfold reservoirNext at h
    rw [dif_pos hc] at h
    cases h
  · unfold reservoirNext
    rw [dif_neg hc]

/-- All pulls from an exhausted `reservoir` signal exhaustion. -/
theorem reservoirPulls_none :
    ∀ (k : ℕ) (s : ReservoirState), (reservoirNext s).1 = none →
      reservoirPulls s k = none := by
  intro k
  induction k with
  | zero => exact fun s h => h
  | succ k ih =>
    intro s h
    show reservoirPulls (reservoirNext s).2 k = none
    rw [reservoirNext_none_fix s h]
    exact ih s h

/-- Without `abort`, a `clip` pull signals exhaustion only after consuming
the whole upstream. -/
theorem clipNext_none_of_no_abort (c : ClipCfg) (habort : c.abort = false) :
    ∀ l, (clipNext c l).1 = none → (clipNext c l).2 = [] := by
  intro l
  induction l with
  | nil => exact fun _ => rfl
  | cons p rest ih =>
    obtain ⟨x, y⟩ := p
    simp only [clipNext, habort]
    split
    · simpa using ih
    · split
      · simpa using ih
      · intro hcontra
        cases hcontra

/-- All pulls of a `clip` over an exhausted upstream signal exhaustion. -/
theorem clipPulls_nil (c : ClipCfg) : ∀ k, clipPulls c [] k = none := by
  intro k
  induction k with
  | zero => rfl
  | succ k ih => exact ih

/-- **C2 (amended).** Exhaustion is terminal for `skip`, `reservoir` and
`clip` without `abort`: once such a stream signals exhaustion, every
subsequent pull also signals exhaustion and no point is ever produced.
`clip` with `abort = True` violates this — after the abort signals
exhaustion, a later pull can emit a point (`clip_abort_not_terminal`);
the Python generator sources themselves stay exhausted by the language's
generator semantics. -/
theorem exhaustion_terminal_skip_reservoir_clip :
    (∀ (start stop step : ℤ) (s : SkipState),
      (skipNext start stop step s).1 = none →
      ∀ k, skipPulls start stop step (skipNext start stop step s).2 k = none) ∧
    (∀ s : ReservoirState, (reservoirNext s).1 = none →
      ∀ k, reservoirPulls (reservoirNext s).2 k = none) ∧
    (∀ c : ClipCfg, c.abort = false → ∀ l, (clipNext c l).1 = none →
      ∀ k, clipPulls c (clipNext c l).2 k = none) := by
  refine ⟨?_, ?_, ?_⟩
  · intro start stop step s h k
    exact skipPulls_none_of_inv start stop step k _
      (skipNextAux_none_char start stop step s.scan s.index h)
  · intro s h k
    rw [reservoirNext_none_fix s h]
    exact reservoirPulls_none k s h
  · intro c habort l h k
    rw [clipNext_none_of_no_abort c habort l h]
    exact clipPulls_nil c k

/-- Witness for `exhaustion_terminal_skip_reservoir_clip` at concrete
exhausted streams. -/
theorem exhaustion_terminal_witness :
    skipPulls 0 3 1 (skipNext 0 3 1 ⟨[], 0⟩).2 2 = none ∧
    reservoirPulls (reservoirNext ⟨[(1, 1)], 1⟩).2 2 = none ∧
    clipPulls ⟨0, 1, 0, 1, none, false⟩
      (clipNext ⟨0, 1, 0, 1, none, false⟩ [(5, 5)]).2 1 = none :=
  ⟨exhaustion_terminal_skip_reservoir_clip.1 0 3 1 ⟨[], 0⟩ rfl 2,
   exhaustion_terminal_skip_reservoir_clip.2.1 ⟨[(1, 1)], 1⟩ rfl 2,
   exhaustion_terminal_skip_reservoir_clip.2.2 ⟨0, 1, 0, 1, none, false⟩ rfl
     [(5, 5)] rfl 1⟩

/-! ## C5: `ringscan` over radii 0‥2 -/

/-- **C5.** `ringscan(0, 0, 0, 2, metric=chebyshev)` emits exactly 25
points; each radius is traversed as one closed clockwise loop — the walk
(which steps through the source's clockwise direction table) ends by
returning to its starting point (third component `false`, i.e. not by
running out of directions) and repeats no point — and every point of the
radius-`r` walk is at Chebyshev distance exactly `r` from the center.
`ringscan(0, 0, 0, 2, metric=manhattan)` emits exactly 13 points, each at
Manhattan distance exactly its radius from the center.  The per-radius
walks shown are exactly the ones the generator chains together (the
direction index persists across radii: chebyshev `0 → 0 → 0`, manhattan
`0 → 7 → 7`). -/
theorem ringscan_chebyshev_manhattan :
    ringscan chebyshev 0 0 0 2 100 =
      .ok (some ([(0, 0)] ++
        [(0, 1), (1, 1), (1, 0), (1, -1), (0, -1), (-1, -1), (-1, 0), (-1, 1)] ++
        [(0, 2), (1, 2), (2, 2), (2, 1), (2, 0), (2, -1), (2, -2), (1, -2),
         (0, -2), (-1, -2), (-2, -2), (-2, -1), (-2, 0), (-2, 1), (-2, 2), (-1, 2)])) ∧
    (([(0, 0)] ++
        [(0, 1), (1, 1), (1, 0), (1, -1), (0, -1), (-1, -1), (-1, 0), (-1, 1)] ++
        [(0, 2), (1, 2), (2, 2), (2, 1), (2, 0), (2, -1), (2, -2), (1, -2),
         (0, -2), (-1, -2), (-2, -2), (-2, -1), (-2, 0), (-2, 1), (-2, 2), (-1, 2)] :
      List IPoint).length = 25) ∧
    ringWalk chebyshev (0, 0) 0 100 (0, 0) (0, 0) 0 0 = some ([(0, 0)], 0, false) ∧
    (ringWalk chebyshev (0, 0) 1 100 (0, 1) (0, 1) 0 0 =
      some ([(0, 1), (1, 1), (1, 0), (1, -1), (0, -1), (-1, -1), (-1, 0), (-1, 1)],
        0, false) ∧
     (∀ p ∈ [((0 : ℤ), (1 : ℤ)), (1, 1), (1, 0), (1, -1), (0, -1), (-1, -1),
             (-1, 0), (-1, 1)], chebyshev (0, 0) p = 1) ∧
     ([((0 : ℤ), (1 : ℤ)), (1, 1), (1, 0), (1, -1), (0, -1), (-1, -1), (-1, 0),
       (-1, 1)] : List IPoint).Nodup) ∧
    (ringWalk chebyshev (0, 0) 2 100 (0, 2) (0, 2) 0 0 =
      some ([(0, 2), (1, 2), (2, 2), (2, 1), (2, 0), (2, -1), (2, -2), (1, -2),
             (0, -2), (-1, -2), (-2, -2), (-2, -1), (-2, 0), (-2, 1), (-2, 2),
             (-1, 2)], 0, false) ∧
     (∀ p ∈ [((0 : ℤ), (2 : ℤ)), (1, 2), (2, 2), (2, 1), (2, 0), (2, -1), (2, -2),
             (1, -2), (0, -2), (-1, -2), (-2, -2), (-2, -1), (-2, 0), (-2, 1),
             (-2, 2), (-1, 2)], chebyshev (0, 0) p = 2) ∧
     ([((0 : ℤ), (2 : ℤ)), (1, 2), (2, 2), (2, 1), (2, 0), (2, -1), (2, -2),
       (1, -2), (0, -2), (-1, -2), (-2, -2), (-2, -1), (-2, 0), (-2, 1), (-2, 2),
       (-1, 2)] : List IPoint).Nodup) ∧
    ringscan manhattan 0 0 0 2 100 =
      .ok (some ([(0, 0)] ++ [(0, 1), (1, 0), (0, -1), (-1, 0)] ++
        [(0, 2), (1, 1), (2, 0), (1, -1), (0, -2), (-1, -1), (-2, 0), (-1, 1)])) ∧
    (([(0, 0)] ++ [(0, 1), (1, 0), (0, -1), (-1, 0)] ++
        [(0, 2), (1, 1), (2, 0), (1, -1), (0, -2), (-1, -1), (-2, 0), (-1, 1)] :
      List IPoint).length = 13) ∧
    ringWalk manhattan (0, 0) 0 100 (0, 0) (0, 0) 0 0 = some ([(0, 0)], 0, false) ∧
    (ringWalk manhattan (0, 0) 1 100 (0, 1) (0, 1) 0 0 =
      some ([(0, 1), (1, 0), (0, -1), (-1, 0)], 7, false) ∧
     ∀ p ∈ [((0 : ℤ), (1 : ℤ)), (1, 0), (0, -1), (-1, 0)], manhattan (0, 0) p = 1) ∧
    (ringWalk manhattan (0, 0) 2 100 (0, 2) (0, 2) 7 0 =
      some ([(0, 2), (1, 1), (2, 0), (1, -1), (0, -2), (-1, -1), (-2, 0), (-1, 1)],
        7, false) ∧
     ∀ p ∈ [((0 : ℤ), (2 : ℤ)), (1, 1), (2, 0), (1, -1), (0, -2), (-1, -1),
            (-2, 0), (-1, 1)], manhattan (0, 0) p = 2) :=
  ⟨rfl, by decide, rfl, ⟨rfl, by decide, by decide⟩, ⟨rfl, by decide, by decide⟩,
   rfl, by decide, rfl, ⟨rfl, by decide⟩, ⟨rfl, by decide⟩⟩

/-! ## C8: `skip` keeps exactly the aligned in-window indices -/

/-- Beyond `stop` nothing is kept by the `skip` selection rule. -/
theorem enumFrom_filter_past_stop (start stop step : ℤ) :
    ∀ (l : List IPoint) (i : ℤ), stop < i →
      (enumFrom i l).filter (fun ip => skipKeep start stop step ip.1) = [] := by
  intro l
  induction l with
  | nil => exact fun i _ => rfl
  | cons p rest ih =>
    intro i h
    simp only [enumFrom, List.filter_cons]
    rw [if_neg (by simp [skipKeep]; omega)]
    exact ih (i + 1) (by omega)

/-- The emission loop of `skip` from cursor `i` equals filtering the
indexed upstream by the selection rule. -/
theorem skipEmit_eq_filter (start stop step : ℤ) :
    ∀ (l : List IPoint) (i : ℤ),
      skipEmit start stop step l i =
        ((enumFrom (i + 1) l).filter fun ip => skipKeep start stop step ip.1).map
          Prod.snd := by
  intro l
  induction l with
  | nil => exact fun i => rfl
  | cons p rest ih =>
    intro i
    simp only [skipEmit, enumFrom, List.filter_cons]
    by_cases h1 : i + 1 < start
    · rw [if_pos h1, if_neg (by simp [skipKeep]; omega)]
      exact ih (i + 1)
    · rw [if_neg h1]
      by_cases h2 : stop < i + 1
      · rw [if_pos h2, if_neg (by simp [skipKeep]; omega),
          enumFrom_filter_past_stop start stop step rest (i + 1 + 1) (by omega)]
        rfl
      · rw [if_neg h2]
        by_cases h3 : (i + 1 - start) % step ≠ 0
        · rw [if_pos h3, if_neg (by simp [skipKeep]; omega)]
          exact ih (i + 1)
        · have h3' : (i + 1 - start) % step = 0 := not_not.mp h3
          rw [if_neg h3,
            if_pos (by simp only [skipKeep, decide_eq_true_eq]; omega)]
          simp only [List.map_cons]
          exact congrArg _ (ih (i + 1))

/-- **C8.** For a valid configuration (`start ≥ 0`, `stop ≥ start`,
`step > 0`), `skip` constructs successfully with cursor `-1`, emits exactly
the upstream points whose 0-based index `k` satisfies
`start ≤ k ≤ stop ∧ (k - start) % step = 0`, in upstream order, and a pull
whose cursor moves past `stop` signals exhaustion immediately, without
scanning the rest of the upstream. -/
theorem skip_emits_indexed_filter :
    ∀ (scan : List IPoint) (start stop step : ℤ),
      0 ≤ start → start ≤ stop → 0 < step →
      skipInit scan start stop step = .ok ⟨scan, -1⟩ ∧
      skipEmit start stop step scan (-1) =
        ((enumFrom 0 scan).filter fun ip => skipKeep start stop step ip.1).map
          Prod.snd ∧
      (∀ (p : IPoint) (rest : List IPoint) (i : ℤ), stop < i + 1 →
        skipNextAux start stop step (p :: rest) i = (none, ⟨rest, i + 1⟩)) := by
  intro scan start stop step h0 h1 h2
  refine ⟨?_, ?_, ?_⟩
  · simp only [skipInit]
    rw [if_neg (by omega), if_neg (by omega), if_neg (by omega), if_neg (by omega)]
  · have h := skipEmit_eq_filter start stop step scan (-1)
    simpa using h
  · intro p rest i h
    simp only [skipNextAux]
    rw [if_neg (by omega), if_pos h]

/-- Witness for `skip_emits_indexed_filter`: `skip(stream, 1, 3, 2)` over a
6-point stream keeps exactly the points with original indices 1 and 3. -/
theorem skip_emits_indexed_filter_witness :
    (skipInit [(0, 0), (1, 1), (2, 2), (3, 3), (4, 4), (5, 5)] 1 3 2 =
      .ok ⟨[(0, 0), (1, 1), (2, 2), (3, 3), (4, 4), (5, 5)], -1⟩ ∧
     skipEmit 1 3 2 [(0, 0), (1, 1), (2, 2), (3, 3), (4, 4), (5, 5)] (-1) =
       ((enumFrom 0 [(0, 0), (1, 1), (2, 2), (3, 3), (4, 4), (5, 5)]).filter
         fun ip => skipKeep 1 3 2 ip.1).map Prod.snd ∧
     (∀ (p : IPoint) (rest : List IPoint) (i : ℤ), (3 : ℤ) < i + 1 →
       skipNextAux 1 3 2 (p :: rest) i = (none, ⟨rest, i + 1⟩))) ∧
    skipEmit 1 3 2 [(0, 0), (1, 1), (2, 2), (3, 3), (4, 4), (5, 5)] (-1) =
      [(1, 1), (3, 3)] :=
  ⟨skip_emits_indexed_filter [(0, 0), (1, 1), (2, 2), (3, 3), (4, 4), (5, 5)]
    1 3 2 (by decide) (by decide) (by decide), by decide⟩

/-! ## C10: `reservoir` sample size and membership -/

/-- Driving `reservoir.__next__` with fuel covering the remaining points
replays the tail of the sampled list. -/
theorem reservoirDriveAux_eq_drop (res : List IPoint) :
    ∀ (fuel count : ℕ), res.length ≤ count + fuel →
      reservoirDriveAux res fuel count = res.drop count := by
  intro fuel
  induction fuel with
  | zero =>
    intro count h
    rw [reservoirDriveAux, List.drop_eq_nil_of_le (by omega : res.length ≤ count)]
  | succ fuel ih =>
    intro count h
    rw [reservoirDriveAux]
    split
    next hc =>
      rw [ih (count + 1) (by omega), List.drop_eq_getElem_cons hc,
        List.get_eq_getElem]
    next hc => rw [List.drop_eq_nil_of_le (by omega)]

/-- `reservoir` replays its whole sampled list from the initial state. -/
theorem reservoirDrive_zero (res : List IPoint) : reservoirDrive res 0 = res := by
  unfold reservoirDrive
  rw [reservoirDriveAux_eq_drop res res.length 0 (by omega)]
  exact List.drop_zero res

/-- The population loop keeps the reservoir at size
`min npoints (points seen)`. -/
theorem reservoirPopulate_length (npoints : ℤ) (f : ℕ → ℕ) :
    ∀ (l : List IPoint) (index : ℕ) (res : List IPoint),
      res.length = min npoints.toNat index →
      (reservoirPopulate npoints f l index res).length =
        min npoints.toNat (index + l.length) := by
  intro l
  induction l with
  | nil =>
    intro index res h
    simpa [reservoirPopulate] using h
  | cons p rest ih =>
    intro index res h
    simp only [reservoirPopulate]
    split
    next hidx =>
      rw [ih (index + 1) (res ++ [p]) (by simp [List.length_append, h]; omega)]
      simp only [List.length_cons]
      omega
    next hidx =>
      split
      next hj =>
        rw [ih (index + 1) (res.set (f index) p) (by simp [List.length_set, h]; omega)]
        simp only [List.length_cons]
        omega
      next hj =>
        rw [ih (index + 1) res (by simp [h]; omega)]
        simp only [List.length_cons]
        omega

/-- Every point in the populated reservoir came from the upstream (or the
initial accumulator). -/
theorem reservoirPopulate_mem (npoints : ℤ) (f : ℕ → ℕ) :
    ∀ (l : List IPoint) (index : ℕ) (res : List IPoint) (x : IPoint),
      x ∈ reservoirPopulate npoints f l index res → x ∈ res ∨ x ∈ l := by
  intro l
  induction l with
  | nil => exact fun index res x h => .inl h
  | cons p rest ih =>
    intro index res x h
    simp only [reservoirPopulate] at h
    split at h
    · rcases ih _ _ x h with hr | hl
      · rcases List.mem_append.mp hr with h' | h'
        · exact .inl h'
        · simp only [List.mem_singleton] at h'
          exact .inr (h' ▸ List.mem_cons_self p rest)
      · exact .inr (List.mem_cons_of_mem p hl)
    · split at h
      · rcases ih _ _ x h with hr | hl
        · rcases List.mem_or_eq_of_mem_set hr with h' | h'
          · exact .inl h'
          · exact .inr (h' ▸ List.mem_cons_self p rest)
        · exact .inr (List.mem_cons_of_mem p hl)
      · rcases ih _ _ x h with hr | hl
        · exact .inl hr
        · exact .inr (List.mem_cons_of_mem p hl)

/-- While fewer points than the sample size have been seen, the population
loop just appends: a short upstream is kept whole, in order. -/
theorem reservoirPopulate_all (npoints : ℤ) (f : ℕ → ℕ) :
    ∀ (l : List IPoint) (index : ℕ) (res : List IPoint),
      (index : ℤ) + l.length ≤ npoints →
      reservoirPopulate npoints f l index res = res ++ l := by
  intro l
  induction l with
  | nil =>
    intro index res _
    rw [reservoirPopulate]
    exact (List.append_nil res).symm
  | cons p rest ih =>
    intro index res h
    simp only [List.length_cons] at h
    push_cast at h
    rw [reservoirPopulate, if_pos (by omega),
      ih (index + 1) (res ++ [p]) (by push_cast; omega)]
    simp

/-- Extracting the element at `j` and erasing it is a permutation. -/
theorem getD_cons_eraseIdx_perm (d : IPoint) :
    ∀ (l : List IPoint) (j : ℕ), j < l.length →
      (l.getD j d :: l.eraseIdx j).Perm l := by
  intro l
  induction l with
  | nil => intro j h; cases h
  | cons a l ih =>
    intro j h
    cases j with
    | zero => exact List.Perm.refl _
    | succ j =>
      rw [List.getD_cons_succ, List.eraseIdx_cons_succ]
      exact (List.Perm.swap a _ _).trans ((ih j (by simpa using h)).cons a)

/-- The shuffle is a permutation. -/
theorem pyShuffleAux_perm (g : ℕ → ℕ) :
    ∀ (fuel : ℕ) (l : List IPoint), l.length ≤ fuel →
      (pyShuffleAux g fuel l).Perm l := by
  intro fuel
  induction fuel with
  | zero =>
    intro l h
    cases l with
    | nil => exact List.Perm.refl _
    | cons p l' => simp at h
  | succ fuel ih =>
    intro l h
    cases l with
    | nil => exact List.Perm.refl _
    | cons p l' =>
      rw [pyShuffleAux]
      have hj : g l'.length % (l'.length + 1) < (p :: l').length := by
        simp only [List.length_cons]
        exact Nat.mod_lt _ (Nat.succ_pos _)
      have hlen : ((p :: l').eraseIdx (g l'.length % (l'.length + 1))).length
          = l'.length := by
        rw [List.length_eraseIdx _ _, if_pos hj]
        simp
      simp only [List.length_cons] at h
      exact (List.Perm.cons _ (ih _ (by omega))).trans
        (getD_cons_eraseIdx_perm p (p :: l') _ hj)

/-- `random.shuffle` permutes the list. -/
theorem pyShuffle_perm (g : ℕ → ℕ) (l : List IPoint) : (pyShuffle g l).Perm l :=
  pyShuffleAux_perm g l.length l le_rfl

/-- **C10.** For every finite upstream of `n` points and every
`npoints > 0`, `reservoir(stream, npoints)` constructs successfully and
replays exactly `min(npoints, n)` points; every emitted point is one of the
upstream's points, and when the upstream holds at most `npoints` points the
emitted points are exactly the upstream's (a permutation of all of them,
not `npoints` of anything). -/
theorem reservoir_emits_min_and_members :
    ∀ (scan : List IPoint) (npoints : ℤ) (f g : ℕ → ℕ), 0 < npoints →
      ∃ st : ReservoirState,
        reservoirInit scan npoints f g = .ok st ∧ st.count = 0 ∧
        (reservoirDrive st.reservoir st.count).length =
          min npoints.toNat scan.length ∧
        (∀ p ∈ reservoirDrive st.reservoir st.count, p ∈ scan) ∧
        ((scan.length : ℤ) ≤ npoints →
          (reservoirDrive st.reservoir st.count).Perm scan) := by
  intro scan npoints f g hn
  refine ⟨⟨pyShuffle g (reservoirPopulate npoints f scan 0 []), 0⟩, ?_, rfl, ?_, ?_, ?_⟩
  · unfold reservoirInit
    rw [if_neg (by omega)]
  · rw [reservoirDrive_zero, (pyShuffle_perm g _).length_eq,
      reservoirPopulate_length npoints f scan 0 [] (by simp)]
    simp
  · intro p hp
    rw [reservoirDrive_zero] at hp
    rcases reservoirPopulate_mem npoints f scan 0 [] p
      ((pyShuffle_perm g _).mem_iff.mp hp) with h | h
    · cases h
    · exact h
  · intro hle
    rw [reservoirDrive_zero]
    have hall : reservoirPopulate npoints f scan 0 [] = [] ++ scan :=
      reservoirPopulate_all npoints f scan 0 [] (by push_cast; omega)
    rw [show reservoirPopulate npoints f scan 0 [] = scan by rw [hall]; rfl] at *
    exact pyShuffle_perm g scan

/-- Witness for `reservoir_emits_min_and_members`: a 2-point upstream with
sample size 5 keeps both points. -/
theorem reservoir_emits_min_and_members_witness :
    ∃ st : ReservoirState,
      reservoirInit [(1, 2), (3, 4)] 5 (fun _ => 0) (fun _ => 0) = .ok st ∧
      st.count = 0 ∧
      (reservoirDrive st.reservoir st.count).length =
        min (5 : ℤ).toNat ([((1 : ℤ), (2 : ℤ)), (3, 4)] : List IPoint).length ∧
      (∀ p ∈ reservoirDrive st.reservoir st.count,
        p ∈ ([((1 : ℤ), (2 : ℤ)), (3, 4)] : List IPoint)) ∧
      ((([((1 : ℤ), (2 : ℤ)), (3, 4)] : List IPoint).length : ℤ) ≤ 5 →
        (reservoirDrive st.reservoir st.count).Perm [(1, 2), (3, 4)]) :=
  reservoir_emits_min_and_members [(1, 2), (3, 4)] 5 (fun _ => 0) (fun _ => 0)
    (by decide)

/-! ## C1 (amended): `gridscan` count and bounds -/

/-- Membership in a Python range, decomposed. -/
theorem pyRange_mem_decomp (a b step x : ℤ) (hx : x ∈ pyRange a b step) :
    ∃ i : ℕ, i < pyRangeLen a b step ∧ x = a + step * i := by
  unfold pyRange at hx
  rw [List.mem_map] at hx
  obtain ⟨j, hj, hval⟩ := hx
  exact ⟨j, List.mem_range.mp hj, hval.symm⟩

/-- A point of an ascending Python range lies in `[a, b)`. -/
theorem pyRange_subset_pos (a b step : ℤ) (hs : 0 < step) :
    ∀ x ∈ pyRange a b step, a ≤ x ∧ x < b := by
  intro x hx
  obtain ⟨i, hi, rfl⟩ := pyRange_mem_decomp a b step x hx
  have hnn : (0 : ℤ) ≤ step * i := mul_nonneg hs.le (Int.natCast_nonneg i)
  refine ⟨by omega, ?_⟩
  unfold pyRangeLen at hi
  rw [if_pos hs] at hi
  by_cases hba : b ≤ a
  · rw [if_pos hba] at hi
    exact absurd hi (by omega)
  · rw [if_neg hba] at hi
    have h1 : i ≤ (b - a - 1).toNat / step.toNat := by omega
    have h4 : i * step.toNat ≤ (b - a - 1).toNat :=
      le_trans (Nat.mul_le_mul_right _ h1) (Nat.div_mul_le_self _ _)
    have hS : ((step.toNat : ℤ)) = step := Int.toNat_of_nonneg (by omega)
    have hM : (((b - a - 1).toNat : ℤ)) = b - a - 1 := Int.toNat_of_nonneg (by omega)
    have h5 : (i : ℤ) * step ≤ b - a - 1 := by
      calc (i : ℤ) * step = (i : ℤ) * (step.toNat : ℤ) := by rw [hS]
        _ = ((i * step.toNat : ℕ) : ℤ) := by push_cast; ring
        _ ≤ (((b - a - 1).toNat : ℕ) : ℤ) := by exact_mod_cast h4
        _ = b - a - 1 := hM
    linarith [h5]

/-- A point of a descending Python range lies in `(b, a]`. -/
theorem pyRange_subset_neg (a b step : ℤ) (hs : step < 0) :
    ∀ x ∈ pyRange a b step, b < x ∧ x ≤ a := by
  intro x hx
  obtain ⟨i, hi, rfl⟩ := pyRange_mem_decomp a b step x hx
  have hnp : step * i ≤ 0 := mul_nonpos_of_nonpos_of_nonneg hs.le (Int.natCast_nonneg i)
  refine ⟨?_, by omega⟩
  unfold pyRangeLen at hi
  rw [if_neg (by omega), if_pos hs] at hi
  by_cases hab : a ≤ b
  · rw [if_pos hab] at hi
    exact absurd hi (by omega)
  · rw [if_neg hab] at hi
    have h1 : i ≤ (a - b - 1).toNat / (-step).toNat := by omega
    have h4 : i * (-step).toNat ≤ (a - b - 1).toNat :=
      le_trans (Nat.mul_le_mul_right _ h1) (Nat.div_mul_le_self _ _)
    have hS : (((-step).toNat : ℤ)) = -step := Int.toNat_of_nonneg (by omega)
    have hM : (((a - b - 1).toNat : ℤ)) = a - b - 1 := Int.toNat_of_nonneg (by omega)
    have h5 : (i : ℤ) * (-step) ≤ a - b - 1 := by
      calc (i : ℤ) * (-step) = (i : ℤ) * ((-step).toNat : ℤ) := by rw [hS]
        _ = ((i * (-step).toNat : ℕ) : ℤ) := by push_cast; ring
        _ ≤ ((((a - b - 1).toNat) : ℕ) : ℤ) := by exact_mod_cast h4
        _ = a - b - 1 := hM
    have : -(step * i) ≤ a - b - 1 := by linarith [h5, (by ring : (i : ℤ) * (-step) = -(step * i))]
    omega

/-- The row length of a `range(v_i, v_f + d, d)` loop with
`d = ±step` chosen towards `v_f` is `⌈|v_f - v_i| / step⌉ + 1`. -/
theorem pyRangeLen_scan (a b step : ℤ) (hs : 0 < step) :
    pyRangeLen a (b + (if a ≤ b then step else -step)) (if a ≤ b then step else -step) =
      ((b - a).natAbs + step.toNat - 1) / step.toNat + 1 := by
  by_cases hab : a ≤ b
  · simp only [if_pos hab]
    unfold pyRangeLen
    rw [if_pos hs, if_neg (by omega : ¬ b + step ≤ a)]
    have : (b + step - a - 1).toNat = (b - a).natAbs + step.toNat - 1 := by omega
    rw [this]
  · simp only [if_neg hab]
    unfold pyRangeLen
    rw [if_neg (by omega : ¬ (0 : ℤ) < -step), if_pos (by omega : -step < 0),
      if_neg (by omega : ¬ a ≤ b + -step)]
    have h1 : (a - (b + -step) - 1).toNat = (b - a).natAbs + step.toNat - 1 := by omega
    have h2 : (-(-step)).toNat = step.toNat := by omega
    rw [h1, h2]

/-- Length of a flat map whose rows all have the same length. -/
theorem length_flatMap_const {α β : Type} (l : List α) (g : α → List β) (c : ℕ)
    (h : ∀ a, (g a).length = c) : (l.flatMap g).length = l.length * c := by
  induction l with
  | nil => simp
  | cons a t ih => simp [List.flatMap_cons, h, ih, Nat.succ_mul, Nat.add_comm]

/-- The grid holds `#rows · #columns` points. -/
theorem gridPoints_length (xi yi xf yf dx dy : ℤ) :
    (gridPoints xi yi xf yf dx dy).length =
      pyRangeLen yi (yf + dy) dy * pyRangeLen xi (xf + dx) dx := by
  unfold gridPoints
  rw [length_flatMap_const _ _ (pyRangeLen xi (xf + dx) dx)
    (fun y => by simp [pyRange])]
  simp [pyRange]

/-- **C1 (amended).** For positive steps `gridscan` emits exactly
`(⌈|xf-xi|/stepx⌉ + 1) · (⌈|yf-yi|/stepy⌉ + 1)` points (one more per axis
than the claimed `⌈(|xf-xi|+1)/stepx⌉` whenever the step does not divide
the span), and every emitted point lies within the bounding box enlarged by
`step - 1` on each axis — the final row/column may overshoot `xf`/`yf` by
up to `stepx - 1`/`stepy - 1` but never undershoots the initial corner. -/
theorem gridscan_count_and_bounds :
    ∀ xi yi xf yf stepx stepy : ℤ, 0 < stepx → 0 < stepy →
      ∃ l, gridscan xi yi xf yf stepx stepy = .ok l ∧
        l.length = (((xf - xi).natAbs + stepx.toNat - 1) / stepx.toNat + 1) *
          (((yf - yi).natAbs + stepy.toNat - 1) / stepy.toNat + 1) ∧
        ∀ p ∈ l,
          min xi xf - (stepx - 1) ≤ p.1 ∧ p.1 ≤ max xi xf + (stepx - 1) ∧
          min yi yf - (stepy - 1) ≤ p.2 ∧ p.2 ≤ max yi yf + (stepy - 1) := by
  intro xi yi xf yf stepx stepy hx hy
  refine ⟨gridPoints xi yi xf yf (if xi ≤ xf then stepx else -stepx)
    (if yi ≤ yf then stepy else -stepy), ?_, ?_, ?_⟩
  · simp only [gridscan]
    rw [if_neg (by omega), if_neg (by omega)]
  · rw [gridPoints_length, pyRangeLen_scan yi yf stepy hy,
      pyRangeLen_scan xi xf stepx hx]
    ring
  · intro p hp
    unfold gridPoints at hp
    rw [List.mem_flatMap] at hp
    obtain ⟨y, hyy, hp⟩ := hp
    rw [List.mem_map] at hp
    obtain ⟨x, hxx, rfl⟩ := hp
    have hxb : min xi xf - (stepx - 1) ≤ x ∧ x ≤ max xi xf + (stepx - 1) := by
      by_cases hab : xi ≤ xf
      · have := pyRange_subset_pos xi (xf + stepx) stepx hx x
          (by rwa [if_pos hab] at hxx)
        omega
      · have := pyRange_subset_neg xi (xf + -stepx) (-stepx) (by omega) x
          (by rwa [if_neg hab] at hxx)
        omega
    have hyb : min yi yf - (stepy - 1) ≤ y ∧ y ≤ max yi yf + (stepy - 1) := by
      by_cases hab : yi ≤ yf
      · have := pyRange_subset_pos yi (yf + stepy) stepy hy y
          (by rwa [if_pos hab] at hyy)
        omega
      · have := pyRange_subset_neg yi (yf + -stepy) (-stepy) (by omega) y
          (by rwa [if_neg hab] at hyy)
        omega
    exact ⟨hxb.1, hxb.2, hyb.1, hyb.2⟩

/-- Witness for `gridscan_count_and_bounds` at the non-dividing-step input
`gridscan(0, 0, 3, 0, 2, 1)`. -/
theorem gridscan_count_and_bounds_witness :
    ∃ l, gridscan 0 0 3 0 2 1 = .ok l ∧
      l.length = ((((3 : ℤ) - 0).natAbs + (2 : ℤ).toNat - 1) / (2 : ℤ).toNat + 1) *
        ((((0 : ℤ) - 0).natAbs + (1 : ℤ).toNat - 1) / (1 : ℤ).toNat + 1) ∧
      ∀ p ∈ l,
        min (0 : ℤ) 3 - (2 - 1) ≤ p.1 ∧ p.1 ≤ max (0 : ℤ) 3 + (2 - 1) ∧
        min (0 : ℤ) 0 - (1 - 1) ≤ p.2 ∧ p.2 ≤ max (0 : ℤ) 0 + (1 - 1) :=
  gridscan_count_and_bounds 0 0 3 0 2 1 (by decide) (by decide)

/-! ## C7: `snakescan` versus `gridscan`

`snakescan` keeps the invariant that `(xa, xb, dx)` is a well-oriented unit
row (`goodRow`): every row is non-empty, starts at `xa`, ends at `xb`, and
swapping `(xa, xb, dx) ↦ (xb, xa, -dx)` reverses it.  The lemmas below
establish the row facts, then `snakescanAux` is rewritten into the explicit
alternating shape `altRows` from which the three claimed properties follow. -/

/-- Length of a one-step-ascending Python range. -/
theorem pyRangeLen_unit_pos (a b : ℤ) (h : a ≤ b) :
    pyRangeLen a (b + 1) 1 = (b - a).toNat + 1 := by
  unfold pyRangeLen
  rw [if_pos Int.one_pos, if_neg (by omega : ¬ b + 1 ≤ a)]
  simp only [show ((1 : ℤ)).toNat = 1 from rfl, Nat.div_one]
  omega

/-- Length of a one-step-descending Python range. -/
theorem pyRangeLen_unit_neg (a b : ℤ) (h : b ≤ a) :
    pyRangeLen a (b + -1) (-1) = (a - b).toNat + 1 := by
  unfold pyRangeLen
  rw [if_neg (by omega : ¬ (0 : ℤ) < -1), if_pos (by omega : (-1 : ℤ) < 0),
    if_neg (by omega : ¬ a ≤ b + -1)]
  simp only [show ((-(-1 : ℤ))).toNat = 1 from rfl, Nat.div_one]
  omega

/-- Closed form of an ascending unit row. -/
theorem rowList_pos (a b : ℤ) (h : a ≤ b) :
    rowList a b 1 =
      (List.range ((b - a).toNat + 1)).map (fun i : ℕ => a + (i : ℤ)) := by
  unfold rowList pyRange
  rw [pyRangeLen_unit_pos a b h]
  simp only [one_mul]

/-- Closed form of a descending unit row. -/
theorem rowList_neg (a b : ℤ) (h : b ≤ a) :
    rowList a b (-1) =
      (List.range ((a - b).toNat + 1)).map (fun i : ℕ => a - (i : ℤ)) := by
  unfold rowList pyRange
  rw [pyRangeLen_unit_neg a b h]
  simp only [neg_mul, one_mul, ← sub_eq_add_neg]

/-- Head of a mapped `range (n+1)`. -/
theorem head?_map_range {β : Type} (f : ℕ → β) (n : ℕ) :
    ((List.range (n + 1)).map f).head? = some (f 0) := by
  rw [List.range_succ_eq_map n]
  rfl

/-- Last element of a mapped `range (n+1)`. -/
theorem getLast?_map_range {β : Type} (f : ℕ → β) (n : ℕ) :
    ((List.range (n + 1)).map f).getLast? = some (f n) := by
  rw [List.range_succ n, List.map_append]
  exact List.getLast?_concat _

/-- A well-oriented row starts at `a`. -/
theorem rowList_head? (a b d : ℤ) (hd : goodRow a b d) :
    (rowList a b d).head? = some a := by
  rcases hd with ⟨rfl, h⟩ | ⟨rfl, h⟩
  · rw [rowList_pos a b h, head?_map_range]
    simp
  · rw [rowList_neg a b h, head?_map_range]
    simp

/-- A well-oriented row ends at `b`. -/
theorem rowList_getLast? (a b d : ℤ) (hd : goodRow a b d) :
    (rowList a b d).getLast? = some b := by
  rcases hd with ⟨rfl, h⟩ | ⟨rfl, h⟩
  · rw [rowList_pos a b h, getLast?_map_range]
    congr 1
    omega
  · rw [rowList_neg a b h, getLast?_map_range]
    congr 1
    omega

/-- A well-oriented row is non-empty. -/
theorem rowList_ne_nil (a b d : ℤ) (hd : goodRow a b d) : rowList a b d ≠ [] := by
  intro hcon
  have h := rowList_head? a b d hd
  rw [hcon] at h
  cases h

/-- The leaked loop variable after a well-oriented row is `b`. -/
theorem rowList_getLastD (a b d : ℤ) (hd : goodRow a b d) (x : ℤ) :
    (rowList a b d).getLastD x = b := by
  rw [List.getLastD_eq_getLast?, rowList_getLast? a b d hd]
  rfl

/-- Swapping the endpoints and negating the direction reverses a
well-oriented row. -/
theorem rowList_reverse (a b d : ℤ) (hd : goodRow a b d) :
    rowList b a (-d) = (rowList a b d).reverse := by
  rcases hd with ⟨rfl, h⟩ | ⟨rfl, h⟩
  · rw [rowList_neg b a h, rowList_pos a b h]
    apply List.ext_getElem
    · simp
    · intro i h1 h2
      simp only [List.length_map, List.length_reverse, List.length_range] at h1 h2
      simp only [List.getElem_map, List.getElem_range, List.getElem_reverse,
        List.length_map, List.length_range]
      omega
  · rw [show -(-1 : ℤ) = 1 by norm_num, rowList_pos b a h, rowList_neg a b h]
    apply List.ext_getElem
    · simp
    · intro i h1 h2
      simp only [List.length_map, List.length_reverse, List.length_range] at h1 h2
      simp only [List.getElem_map, List.getElem_range, List.getElem_reverse,
        List.length_map, List.length_range]
      omega

/-- A well-oriented row has no duplicates. -/
theorem rowList_nodup (a b d : ℤ) (hd : goodRow a b d) : (rowList a b d).Nodup := by
  rcases hd with ⟨rfl, h⟩ | ⟨rfl, h⟩
  · rw [rowList_pos a b h]
    exact (List.nodup_range _).map (fun i j hij => by omega)
  · rw [rowList_neg a b h]
    exact (List.nodup_range _).map (fun i j hij => by omega)

/-- Consecutive entries of a well-oriented row differ by the direction. -/
theorem rowList_chain (a b d : ℤ) (hd : goodRow a b d) :
    List.Chain' (fun u v => v = u + d) (rowList a b d) := by
  rcases hd with ⟨rfl, h⟩ | ⟨rfl, h⟩
  · rw [rowList_pos a b h, List.chain'_map, List.chain'_range_succ]
    intro m _
    push_cast
    ring
  · rw [rowList_neg a b h, List.chain'_map, List.chain'_range_succ]
    intro m _
    push_cast
    ring

/-- Swapping a well-oriented row keeps it well-oriented. -/
theorem goodRow_swap (a b d : ℤ) (hd : goodRow a b d) : goodRow b a (-d) := by
  rcases hd with ⟨rfl, h⟩ | ⟨rfl, h⟩
  · exact .inr ⟨by norm_num, h⟩
  · exact .inl ⟨by norm_num, h⟩

/-- `snakescanAux` from a well-oriented configuration produces the
alternating-row shape: the direction-swap condition always fires (the
leaked `x` is the far endpoint), even rows traverse `rowList a b d` and odd
rows its reverse. -/
theorem snakescanAux_eq_altRows (a b d : ℤ) (hd : goodRow a b d) :
    ∀ (ys : List ℤ) (x : ℤ),
      snakescanAux a b d x ys = altRows (rowList a b d) false ys ∧
      snakescanAux b a (-d) x ys = altRows (rowList a b d) true ys := by
  intro ys
  induction ys with
  | nil => exact fun x => ⟨rfl, rfl⟩
  | cons y ys ih =>
    intro x
    constructor
    · rw [snakescanAux]
      simp only [rowList_getLastD a b d hd x]
      rw [if_pos (Or.inr trivial)]
      rw [altRows]
      exact congrArg _ ((ih b).2)
    · rw [snakescanAux]
      simp only [rowList_getLastD b a (-d) (goodRow_swap a b d hd) x]
      rw [if_pos (Or.inr trivial)]
      rw [altRows, rowList_reverse a b d hd]
      refine congrArg₂ _ rfl ?_
      rw [neg_neg]
      exact (ih a).1

/-- `snakescan` in the alternating-row shape. -/
theorem snakescan_eq_altRows (xi yi xf yf : ℤ) :
    snakescan xi yi xf yf =
      altRows (rowList xi xf (if xi ≤ xf then 1 else -1)) false
        (pyRange yi (yf + (if yi ≤ yf then 1 else -1)) (if yi ≤ yf then 1 else -1)) := by
  unfold snakescan
  exact (snakescanAux_eq_altRows xi xf _
    (by by_cases h : xi ≤ xf <;> simp [goodRow, h, le_of_not_le]) _ xi).1

/-- Membership in the alternating-row shape: a point is emitted iff its
x lies in the row and its y among the scanned rows. -/
theorem altRows_mem (R : List ℤ) :
    ∀ (ys : List ℤ) (phase : Bool) (p : IPoint),
      p ∈ altRows R phase ys ↔ p.1 ∈ R ∧ p.2 ∈ ys := by
  intro ys
  induction ys with
  | nil => intro phase p; simp [altRows]
  | cons y ys ih =>
    intro phase p
    obtain ⟨px, py⟩ := p
    simp only [altRows, List.mem_append, List.mem_map, ih, List.mem_cons,
      Prod.mk.injEq]
    cases phase <;> simp only [Bool.false_eq_true, if_false, if_true,
      List.mem_reverse] <;> constructor
    · rintro (⟨x, hx, rfl, rfl⟩ | ⟨h1, h2⟩)
      · exact ⟨hx, Or.inl rfl⟩
      · exact ⟨h1, Or.inr h2⟩
    · rintro ⟨h1, rfl | h2⟩
      · exact Or.inl ⟨px, h1, rfl, rfl⟩
      · exact Or.inr ⟨h1, h2⟩
    · rintro (⟨x, hx, rfl, rfl⟩ | ⟨h1, h2⟩)
      · exact ⟨hx, Or.inl rfl⟩
      · exact ⟨h1, Or.inr h2⟩
    · rintro ⟨h1, rfl | h2⟩
      · exact Or.inl ⟨px, h1, rfl, rfl⟩
      · exact Or.inr ⟨h1, h2⟩

/-- Membership in the grid: a point is emitted iff each coordinate lies in
its axis range. -/
theorem gridPoints_mem (xi yi xf yf dx dy : ℤ) (p : IPoint) :
    p ∈ gridPoints xi yi xf yf dx dy ↔
      p.1 ∈ pyRange xi (xf + dx) dx ∧ p.2 ∈ pyRange yi (yf + dy) dy := by
  obtain ⟨px, py⟩ := p
  unfold gridPoints
  simp only [List.mem_flatMap, List.mem_map, Prod.mk.injEq]
  constructor
  · rintro ⟨y, hy, x, hx, rfl, rfl⟩
    exact ⟨hx, hy⟩
  · rintro ⟨hx, hy⟩
    exact ⟨py, hy, px, hx, rfl, rfl⟩

/-- The decidable chain predicate agrees with `List.Chain'`. -/
theorem chainAdjacent_iff :
    ∀ l : List IPoint, chainAdjacent l ↔ List.Chain' adjacentPt l := by
  intro l
  induction l with
  | nil => simp [chainAdjacent]
  | cons p l ih =>
    cases l with
    | nil => simp [chainAdjacent]
    | cons q m =>
      rw [chainAdjacent, List.chain'_cons, ih]

/-- A unit-stepped x-row, paired with a constant y, is unit-adjacent. -/
theorem chain'_adjacent_row (e : ℤ) (he : e = 1 ∨ e = -1) (l : List ℤ)
    (hl : List.Chain' (fun u v => v = u + e) l) (y : ℤ) :
    List.Chain' adjacentPt (l.map (fun x => (x, y))) := by
  rw [List.chain'_map]
  refine hl.imp ?_
  intro u v huv
  refine Or.inl ⟨?_, rfl⟩
  rw [huv]
  rcases he with rfl | rfl <;> simp

/-- Reversing a unit-stepped row negates the step. -/
theorem chain_reverse_unit (d : ℤ) (l : List ℤ)
    (hl : List.Chain' (fun u v => v = u + d) l) :
    List.Chain' (fun u v => v = u + -d) l.reverse := by
  rw [List.chain'_reverse]
  exact hl.imp (fun u v huv => show u = v + -d by omega)

/-- The alternating-row shape over a unit-stepped list of rows is
unit-adjacent throughout: rows are adjacent within themselves, and each row
ends at the x where the next one starts, one y-step away. -/
theorem altRows_chain (a b d : ℤ) (hd : goodRow a b d) (dy : ℤ)
    (hdy : dy = 1 ∨ dy = -1) :
    ∀ (ys : List ℤ) (phase : Bool),
      List.Chain' (fun u v => v = u + dy) ys →
      List.Chain' adjacentPt (altRows (rowList a b d) phase ys) := by
  have hd1 : d = 1 ∨ d = -1 := by
    rcases hd with ⟨h, _⟩ | ⟨h, _⟩
    · exact .inl h
    · exact .inr h
  intro ys
  induction ys with
  | nil => exact fun phase _ => List.chain'_nil
  | cons y ys ih =>
    intro phase hch
    rw [altRows]
    apply List.Chain'.append
    · cases phase
      · simp only [Bool.false_eq_true, if_false]
        exact chain'_adjacent_row d hd1 _ (rowList_chain a b d hd) y
      · simp only [if_true]
        exact chain'_adjacent_row (-d) (by rcases hd1 with rfl | rfl <;> simp) _
          (chain_reverse_unit d _ (rowList_chain a b d hd)) y
    · exact ih (!phase) hch.tail
    · intro u hu v hv
      cases ys with
      | nil => simp [altRows] at hv
      | cons y' ys' =>
        have hyy : y' = y + dy := (List.chain'_cons.mp hch).1
        rw [List.getLast?_map] at hu
        rw [altRows,
          List.head?_append_of_ne_nil _ (by
            cases phase <;>
              simp [rowList_ne_nil a b d hd, List.map_eq_nil_iff,
                List.reverse_eq_nil_iff] : ((if !phase then
                  (rowList a b d).reverse else rowList a b d).map
                  (fun xx => (xx, y'))) ≠ []),
          List.head?_map] at hv
        cases phase
        · simp only [Bool.false_eq_true, if_false, Bool.not_false, if_true,
            rowList_getLast? a b d hd, List.head?_reverse] at hu hv
          simp only [Option.map_some', Option.mem_def, Option.some.injEq] at hu hv
          rw [← hu, ← hv]
          exact Or.inr ⟨rfl, by rcases hdy with rfl | rfl <;> simp [hyy]⟩
        · simp only [if_true, Bool.not_true, Bool.false_eq_true, if_false,
            List.getLast?_reverse, rowList_head? a b d hd] at hu hv
          simp only [Option.map_some', Option.mem_def, Option.some.injEq] at hu hv
          rw [← hu, ← hv]
          exact Or.inr ⟨rfl, by rcases hdy with rfl | rfl <;> simp [hyy]⟩

/-- Row extraction distributes over concatenation. -/
theorem rowPoints_append (l1 l2 : List IPoint) (y : ℤ) :
    rowPoints (l1 ++ l2) y = rowPoints l1 y ++ rowPoints l2 y := by
  simp [rowPoints, List.filter_append]

/-- Extracting the row of a constant-y block returns its x-list. -/
theorem rowPoints_map_self (l : List ℤ) (y : ℤ) :
    rowPoints (l.map fun x => (x, y)) y = l := by
  induction l with
  | nil => rfl
  | cons x l ih =>
    simp only [List.map_cons, rowPoints, List.filter_cons] at ih ⊢
    rw [if_pos (by simp)]
    simpa using ih

/-- A constant-y block contributes nothing to a different row. -/
theorem rowPoints_map_ne (l : List ℤ) (y z : ℤ) (h : y ≠ z) :
    rowPoints (l.map fun x => (x, y)) z = [] := by
  unfold rowPoints
  rw [List.filter_eq_nil_iff.mpr, List.map_nil]
  rintro p hp
  rw [List.mem_map] at hp
  obtain ⟨x, _, rfl⟩ := hp
  simp [h]

/-- Rows never scanned are empty. -/
theorem rowPoints_altRows_not_mem (R : List ℤ) :
    ∀ (ys : List ℤ) (phase : Bool) (z : ℤ), z ∉ ys →
      rowPoints (altRows R phase ys) z = [] := by
  intro ys
  induction ys with
  | nil => intro phase z _; rfl
  | cons y ys ih =>
    intro phase z hz
    rw [altRows, rowPoints_append,
      rowPoints_map_ne _ y z (fun hc => hz (hc ▸ List.mem_cons_self y ys)),
      ih (!phase) z (fun hc => hz (List.mem_cons_of_mem y hc))]
    rfl

/-- The `k`-th scanned row of the alternating shape is `R` or `R.reverse`
according to the phase and the parity of `k`. -/
theorem rowPoints_altRows (R : List ℤ) :
    ∀ ys : List ℤ, ys.Nodup → ∀ (phase : Bool) (k : ℕ) (hk : k < ys.length),
      rowPoints (altRows R phase ys) (ys.get ⟨k, hk⟩) =
        if phase != decide (k % 2 = 1) then R.reverse else R := by
  intro ys
  induction ys with
  | nil => intro _ phase k hk; exact absurd hk (by simp)
  | cons y ys ih =>
    intro hnd phase k hk
    rw [altRows, rowPoints_append]
    cases k with
    | zero =>
      show rowPoints _ y ++ rowPoints _ y = _
      rw [rowPoints_map_self, rowPoints_altRows_not_mem R ys (!phase) y
        (List.nodup_cons.mp hnd).1, List.append_nil]
      cases phase <;> rfl
    | succ k =>
      have hk' : k < ys.length := by simpa using hk
      show rowPoints _ (ys.get ⟨k, hk'⟩) ++ rowPoints _ (ys.get ⟨k, hk'⟩) = _
      have hyne : y ≠ ys.get ⟨k, hk'⟩ := by
        intro hc
        exact (List.nodup_cons.mp hnd).1 (hc ▸ ys.get_mem _ _)
      rw [rowPoints_map_ne _ y _ hyne, List.nil_append,
        ih (List.nodup_cons.mp hnd).2 (!phase) k hk']
      have hpar : decide ((k + 1) % 2 = 1) = !decide (k % 2 = 1) := by
        rcases Nat.mod_two_eq_zero_or_one k with h | h <;>
          simp [h, Nat.add_mod, (by omega : (k + 1) % 2 = 1 - k % 2)]
      rw [hpar]
      cases phase <;> cases hdec : decide (k % 2 = 1) <;> simp

/-- The `k`-th entry of a well-oriented row. -/
theorem rowList_get (a b d : ℤ) (hd : goodRow a b d) (k : ℕ)
    (hk : k < (rowList a b d).length) :
    (rowList a b d).get ⟨k, hk⟩ = a + d * k := by
  rcases hd with ⟨rfl, h⟩ | ⟨rfl, h⟩
  · simp only [rowList_pos a b h, List.get_eq_getElem, List.getElem_map,
      List.getElem_range]
    ring
  · simp only [rowList_neg a b h, List.get_eq_getElem, List.getElem_map,
      List.getElem_range]
    ring

/-- **C7.** For every bounds, `snakescan(xi, yi, xf, yf)` emits exactly the
same set of points as `gridscan(xi, yi, xf, yf, 1, 1)` (which succeeds and
emits `gridPoints` with the derived unit directions); every two consecutive
emitted points differ by exactly one unit in exactly one coordinate; and
the x-traversal direction alternates between consecutive rows — the
x-sequence of scanned row `k + 1` is the reverse of that of row `k`. -/
theorem snakescan_matches_gridscan (xi yi xf yf : ℤ) :
    (gridscan xi yi xf yf 1 1 =
      .ok (gridPoints xi yi xf yf (if xi ≤ xf then 1 else -1)
        (if yi ≤ yf then 1 else -1))) ∧
    (∀ p : IPoint, p ∈ snakescan xi yi xf yf ↔
      p ∈ gridPoints xi yi xf yf (if xi ≤ xf then 1 else -1)
        (if yi ≤ yf then 1 else -1)) ∧
    chainAdjacent (snakescan xi yi xf yf) ∧
    (∀ k : ℕ,
      k + 1 < (pyRange yi (yf + (if yi ≤ yf then 1 else -1))
        (if yi ≤ yf then 1 else -1)).length →
      rowPoints (snakescan xi yi xf yf)
          (yi + (if yi ≤ yf then 1 else -1) * (k + 1)) =
        (rowPoints (snakescan xi yi xf yf)
          (yi + (if yi ≤ yf then 1 else -1) * k)).reverse) := by
  have hgx : goodRow xi xf (if xi ≤ xf then 1 else -1) := by
    by_cases h : xi ≤ xf <;> simp [goodRow, h, le_of_not_le]
  have hgy : goodRow yi yf (if yi ≤ yf then 1 else -1) := by
    by_cases h : yi ≤ yf <;> simp [goodRow, h, le_of_not_le]
  have hdy : (if yi ≤ yf then (1 : ℤ) else -1) = 1 ∨
      (if yi ≤ yf then (1 : ℤ) else -1) = -1 := by
    by_cases h : yi ≤ yf <;> simp [h]
  refine ⟨?_, ?_, ?_, ?_⟩
  · simp only [gridscan]
    rw [if_neg (by omega : ¬ (1 : ℤ) ≤ 0), if_neg (by omega : ¬ (1 : ℤ) ≤ 0)]
  · intro p
    rw [snakescan_eq_altRows, altRows_mem, gridPoints_mem]
    exact Iff.rfl
  · rw [chainAdjacent_iff, snakescan_eq_altRows]
    exact altRows_chain xi xf _ hgx _ hdy _ false (rowList_chain yi yf _ hgy)
  · intro k hk
    have hk1 : k < (rowList yi yf (if yi ≤ yf then 1 else -1)).length := by
      exact Nat.lt_of_succ_lt hk
    have hk2 : k + 1 < (rowList yi yf (if yi ≤ yf then 1 else -1)).length := hk
    have e1 : yi + (if yi ≤ yf then (1 : ℤ) else -1) * k =
        (rowList yi yf (if yi ≤ yf then 1 else -1)).get ⟨k, hk1⟩ :=
      (rowList_get yi yf _ hgy k hk1).symm
    have e2 : yi + (if yi ≤ yf then (1 : ℤ) else -1) * (k + 1) =
        (rowList yi yf (if yi ≤ yf then 1 else -1)).get ⟨k + 1, hk2⟩ := by
      rw [rowList_get yi yf _ hgy (k + 1) hk2]
      push_cast
      ring
    rw [snakescan_eq_altRows, e1, e2,
      show pyRange yi (yf + (if yi ≤ yf then 1 else -1)) (if yi ≤ yf then 1 else -1) =
        rowList yi yf (if yi ≤ yf then 1 else -1) from rfl,
      rowPoints_altRows _ _ (rowList_nodup yi yf _ hgy) false (k + 1) hk2,
      rowPoints_altRows _ _ (rowList_nodup yi yf _ hgy) false k hk1]
    rcases Nat.mod_two_eq_zero_or_one k with h | h
    · have h1 : (k + 1) % 2 = 1 := by omega
      simp [h, h1]
    · have h1 : (k + 1) % 2 = 0 := by omega
      simp [h, h1]

/-- Witness for `snakescan_matches_gridscan` at the test bounds `(0,0)–(2,2)`:
its row-alternation clause instantiated at `k = 0` and `k = 1`. -/
theorem snakescan_matches_gridscan_witness :
    (0 + 1 < (pyRange 0 (2 + (if (0 : ℤ) ≤ 2 then 1 else -1))
        (if (0 : ℤ) ≤ 2 then 1 else -1)).length) ∧
    rowPoints (snakescan 0 0 2 2) (0 + (if (0 : ℤ) ≤ 2 then 1 else -1) * (0 + 1)) =
      (rowPoints (snakescan 0 0 2 2)
        (0 + (if (0 : ℤ) ≤ 2 then 1 else -1) * 0)).reverse ∧
    chainAdjacent (snakescan 0 0 2 2) ∧
    (((3 : ℤ), (1 : ℤ)) ∈ snakescan 0 0 2 2 ↔
      ((3 : ℤ), (1 : ℤ)) ∈ gridPoints 0 0 2 2 (if (0 : ℤ) ≤ 2 then 1 else -1)
        (if (0 : ℤ) ≤ 2 then 1 else -1)) :=
  ⟨by decide,
   (snakescan_matches_gridscan 0 0 2 2).2.2.2 0 (by decide),
   (snakescan_matches_gridscan 0 0 2 2).2.2.1,
   (snakescan_matches_gridscan 0 0 2 2).2.1 (3, 1)⟩

end Pixelscan
